import Mathlib

/-!
# Verification of the VeloTheHelo remote-collection orchestrator and
# result-normalization pipeline

Shallow embedding of the Python sources `collector_manager.py` and
`process_zip_files.py`.  JSON records (Python dicts obtained from
`json.loads` of one line of a results file) are modelled as association
lists of `String × Json`; Python dict assignment `d[k] = v` replaces the
value at the first matching key in place, or appends a fresh entry, which
is exactly `setKey` below.  Python strings are modelled either as Lean
`String`s or as `List Char` where character-level operations
(`str.replace`, `str.split`, `str.strip`) must be mirrored precisely.
-/

set_option linter.unusedVariables false
set_option linter.unreachableTactic false
set_option linter.unusedTactic false

namespace Velo

/-- JSON values, as produced by `json.loads` on one line of a results file.
Objects keep field order (Python dicts preserve insertion order). -/
inductive Json where
  | null
  | bool (b : Bool)
  | num (n : Int)
  | str (s : String)
  | arr (items : List Json)
  | obj (fields : List (String × Json))

/-- A JSON object: the association list behind a Python dict. -/
abbrev Obj := List (String × Json)

/-- `d.get(k)`: value at the first matching key, if any. -/
def lookup (o : Obj) (k : String) : Option Json :=
  match o with
  | [] => none
  | (k0, v) :: rest => if k0 = k then some v else lookup rest k

/-- `k in d` for a Python dict. -/
def hasKey (o : Obj) (k : String) : Bool :=
  match o with
  | [] => false
  | (k0, _) :: rest => if k0 = k then true else hasKey rest k

/-- Python dict assignment `d[k] = v`: replace the value at the first
matching key in place, or append a fresh entry at the end. -/
def setKey (o : Obj) (k : String) (v : Json) : Obj :=
  match o with
  | [] => [(k, v)]
  | (k0, v0) :: rest => if k0 = k then (k, v) :: rest else (k0, v0) :: setKey rest k v

@[simp] theorem lookup_nil (k : String) : lookup [] k = none := rfl

@[simp] theorem hasKey_nil (k : String) : hasKey [] k = false := rfl

theorem hasKey_eq_isSome (o : Obj) (k : String) :
    hasKey o k = (lookup o k).isSome := by
  induction o with
  | nil => simp [lookup, hasKey]
  | cons hd tl ih =>
    obtain ⟨k0, v⟩ := hd
    by_cases h : k0 = k <;> simp [lookup, hasKey, h, ih]

theorem lookup_setKey_self (o : Obj) (k : String) (v : Json) :
    lookup (setKey o k v) k = some v := by
  induction o with
  | nil => simp [setKey, lookup]
  | cons hd tl ih =>
    obtain ⟨k0, v0⟩ := hd
    by_cases h : k0 = k <;> simp [setKey, lookup, h, ih]

theorem lookup_setKey_ne (o : Obj) (k k2 : String) (v : Json) (h : k ≠ k2) :
    lookup (setKey o k v) k2 = lookup o k2 := by
  induction o with
  | nil => simp [setKey, lookup, h]
  | cons hd tl ih =>
    obtain ⟨k0, v0⟩ := hd
    by_cases h0 : k0 = k
    · subst h0
      simp [setKey, lookup, h]
    · simp [setKey, lookup, h0, ih]

theorem setKey_lookup_same (o : Obj) (k : String) (v : Json)
    (h : lookup o k = some v) : setKey o k v = o := by
  induction o with
  | nil => simp [lookup] at h
  | cons hd tl ih =>
    obtain ⟨k0, v0⟩ := hd
    by_cases h0 : k0 = k
    · subst h0
      simp [lookup] at h
      simp [setKey, h]
    · simp [lookup, h0] at h
      simp [setKey, h0, ih h]

/-- If the key is absent, Python assignment appends a fresh entry. -/
theorem setKey_absent (o : Obj) (k : String) (v : Json)
    (h : hasKey o k = false) : setKey o k v = o ++ [(k, v)] := by
  induction o with
  | nil => simp [setKey]
  | cons hd tl ih =>
    obtain ⟨k0, v0⟩ := hd
    by_cases h0 : k0 = k
    · simp [hasKey, h0] at h
    · simp [hasKey, h0] at h
      simp [setKey, h0, ih h]

theorem hasKey_setKey_self (o : Obj) (k : String) (v : Json) :
    hasKey (setKey o k v) k = true := by
  rw [hasKey_eq_isSome, lookup_setKey_self]
  rfl

theorem hasKey_setKey_ne (o : Obj) (k k2 : String) (v : Json) (h : k ≠ k2) :
    hasKey (setKey o k v) k2 = hasKey o k2 := by
  rw [hasKey_eq_isSome, hasKey_eq_isSome, lookup_setKey_ne _ _ _ _ h]

/-! ## SystemInfo extraction (`CollectorManager.extract_system_info`,
`process_zip_files.extract_system_info`)

The fixed key set searched out of the basic-information document. -/

def keysToExtract : List String :=
  ["Hostname", "OS", "Platform", "PlatformVersion", "Fqdn", "MACAddresses"]

mutual

/-- The `search_dict` inner function of `extract_system_info`: walk the
fields of a dict in order; a field whose key is a target key is assigned
into the accumulated `system_info` dict (`system_info[key] = value`, with
no descent into its value, mirroring the `if`/`elif` chain); otherwise the
value is searched by `searchValue`. -/
def searchFields (targets : List String) : List (String × Json) → Obj → Obj
  | [], acc => acc
  | (k, v) :: rest, acc =>
    if k ∈ targets then searchFields targets rest (setKey acc k v)
    else searchFields targets rest (searchValue targets v acc)

/-- The `elif` chain of `search_dict` on a non-target value: descend into
dicts, descend into the dict items of lists, ignore everything else. -/
def searchValue (targets : List String) : Json → Obj → Obj
  | Json.obj fs, acc => searchFields targets fs acc
  | Json.arr items, acc => searchItems targets items acc
  | Json.null, acc => acc
  | Json.bool _, acc => acc
  | Json.num _, acc => acc
  | Json.str _, acc => acc

/-- The list branch of `search_dict`: search dict items only (nested lists
are not descended into). -/
def searchItems (targets : List String) : List Json → Obj → Obj
  | [], acc => acc
  | it :: rest, acc => searchItems targets rest (searchItem targets it acc)

/-- One item of a list value: `if isinstance(item, dict): search_dict(...)`. -/
def searchItem (targets : List String) : Json → Obj → Obj
  | Json.obj fs, acc => searchFields targets fs acc
  | Json.arr _, acc => acc
  | Json.null, acc => acc
  | Json.bool _, acc => acc
  | Json.num _, acc => acc
  | Json.str _, acc => acc

end

/-- `extract_system_info`: run `search_dict` over the parsed
basic-information document with an initially empty `system_info`. -/
def extractSystemInfo (basicInfo : Obj) : Obj :=
  searchFields keysToExtract basicInfo []

mutual

/-- All values encountered for target key `k` during the `search_dict`
traversal of a field list, in traversal order.  A target-keyed field
records its value and is not descended into, mirroring the `elif`
structure of `search_dict`. -/
def occFields (targets : List String) (k : String) : List (String × Json) → List Json
  | [] => []
  | (k0, v) :: rest =>
    if k0 ∈ targets then
      (if k0 = k then [v] else []) ++ occFields targets k rest
    else occValue targets k v ++ occFields targets k rest

/-- Occurrences of target key `k` inside a non-target value. -/
def occValue (targets : List String) (k : String) : Json → List Json
  | Json.obj fs => occFields targets k fs
  | Json.arr items => occItems targets k items
  | Json.null => []
  | Json.bool _ => []
  | Json.num _ => []
  | Json.str _ => []

/-- Occurrences of target key `k` among the items of a list value. -/
def occItems (targets : List String) (k : String) : List Json → List Json
  | [] => []
  | it :: rest => occItem targets k it ++ occItems targets k rest

/-- Occurrences of target key `k` in one item of a list value. -/
def occItem (targets : List String) (k : String) : Json → List Json
  | Json.obj fs => occFields targets k fs
  | Json.arr _ => []
  | Json.null => []
  | Json.bool _ => []
  | Json.num _ => []
  | Json.str _ => []

end

/-- The last element of `xs` if there is one, else the fallback option. -/
def lastOr (xs : List Json) (dflt : Option Json) : Option Json :=
  match xs.getLast? with
  | some v => some v
  | none => dflt

@[simp] theorem lastOr_nil (d : Option Json) : lastOr [] d = d := rfl

theorem lastOr_append (xs ys : List Json) (d : Option Json) :
    lastOr (xs ++ ys) d = lastOr ys (lastOr xs d) := by
  cases hy : ys.getLast? with
  | some v =>
    have : (xs ++ ys).getLast? = some v := by
      cases ys with
      | nil => simp at hy
      | cons b bs => rw [List.getLast?_append_cons]; exact hy
    simp [lastOr, this, hy]
  | none =>
    have hys : ys = [] := by
      cases ys with
      | nil => rfl
      | cons b bs => simp [List.getLast?_cons] at hy
    subst hys
    simp [lastOr]

theorem lastOr_singleton_append (v : Json) (ys : List Json) (d : Option Json) :
    lastOr ([v] ++ ys) d = lastOr ys (some v) := by
  rw [lastOr_append]
  rfl

/-- The value `search_dict` leaves at key `k` is the last occurrence of `k`
in the traversal (or whatever the accumulator held when no occurrence is
met): each assignment `system_info[key] = value` overwrites the previous
one.  Proved for `searchFields` and `searchItems` simultaneously by strong
induction on the size of the structure. -/
theorem search_occ (t : List String) (k : String) :
    ∀ n : Nat,
      (∀ (l : List (String × Json)) (acc : Obj), sizeOf l ≤ n →
        lookup (searchFields t l acc) k = lastOr (occFields t k l) (lookup acc k)) ∧
      (∀ (v : Json) (acc : Obj), sizeOf v ≤ n →
        lookup (searchValue t v acc) k = lastOr (occValue t k v) (lookup acc k)) ∧
      (∀ (items : List Json) (acc : Obj), sizeOf items ≤ n →
        lookup (searchItems t items acc) k = lastOr (occItems t k items) (lookup acc k)) ∧
      (∀ (it : Json) (acc : Obj), sizeOf it ≤ n →
        lookup (searchItem t it acc) k = lastOr (occItem t k it) (lookup acc k)) := by
  intro n
  induction n using Nat.strong_induction_on with
  | _ n ih =>
    refine ⟨?_, ?_, ?_, ?_⟩
    · intro l acc hn
      match l with
      | [] => simp [searchFields, occFields]
      | (k0, v) :: rest =>
        have hsz : sizeOf rest < sizeOf ((k0, v) :: rest) := by first | (simp; omega) | simp
        have hv : sizeOf v < sizeOf ((k0, v) :: rest) := by first | (simp; omega) | simp
        have hrest : sizeOf rest < n := lt_of_lt_of_le hsz hn
        by_cases htk : k0 ∈ t
        · rw [searchFields, occFields]
          simp only [if_pos htk]
          rw [(ih (sizeOf rest) hrest).1 rest (setKey acc k0 v) le_rfl]
          by_cases hk : k0 = k
          · subst hk
            rw [lookup_setKey_self, if_pos rfl, lastOr_singleton_append]
          · rw [lookup_setKey_ne _ _ _ _ hk, if_neg hk, List.nil_append]
        · rw [searchFields, occFields]
          simp only [if_neg htk]
          rw [(ih (sizeOf rest) hrest).1 rest _ le_rfl,
            (ih (sizeOf v) (lt_of_lt_of_le hv hn)).2.1 v acc le_rfl, lastOr_append]
    · intro v acc hn
      match v with
      | Json.obj fs =>
        have hfs : sizeOf fs < sizeOf (Json.obj fs) := by first | (simp; omega) | simp
        rw [searchValue, occValue]
        exact (ih (sizeOf fs) (lt_of_lt_of_le hfs hn)).1 fs acc le_rfl
      | Json.arr items =>
        have hit : sizeOf items < sizeOf (Json.arr items) := by first | (simp; omega) | simp
        rw [searchValue, occValue]
        exact (ih (sizeOf items) (lt_of_lt_of_le hit hn)).2.2.1 items acc le_rfl
      | Json.null => simp [searchValue, occValue]
      | Json.bool b => simp [searchValue, occValue]
      | Json.num m => simp [searchValue, occValue]
      | Json.str s => simp [searchValue, occValue]
    · intro items acc hn
      match items with
      | [] => simp [searchItems, occItems]
      | it :: rest =>
        have hsz : sizeOf rest < sizeOf (it :: rest) := by first | (simp; omega) | simp
        have hit : sizeOf it < sizeOf (it :: rest) := by first | (simp; omega) | simp
        rw [searchItems, occItems]
        rw [(ih (sizeOf rest) (lt_of_lt_of_le hsz hn)).2.2.1 rest _ le_rfl,
          (ih (sizeOf it) (lt_of_lt_of_le hit hn)).2.2.2 it acc le_rfl, lastOr_append]
    · intro it acc hn
      match it with
      | Json.obj fs =>
        have hfs : sizeOf fs < sizeOf (Json.obj fs) := by first | (simp; omega) | simp
        rw [searchItem, occItem]
        exact (ih (sizeOf fs) (lt_of_lt_of_le hfs hn)).1 fs acc le_rfl
      | Json.arr xs => simp [searchItem, occItem]
      | Json.null => simp [searchItem, occItem]
      | Json.bool b => simp [searchItem, occItem]
      | Json.num m => simp [searchItem, occItem]
      | Json.str s => simp [searchItem, occItem]

/-- C4, amended general form: the value `extract_system_info` reports for a
key is the LAST occurrence met in the depth-first, in-order traversal of
the document (each later occurrence replaces the earlier one), not the
first. -/
theorem extractSystemInfo_last_occurrence (basic : Obj) (k : String) :
    lookup (extractSystemInfo basic) k = (occFields keysToExtract k basic).getLast? := by
  have h := (search_occ keysToExtract k (sizeOf basic)).1 basic [] le_rfl
  rw [extractSystemInfo, h]
  cases hx : (occFields keysToExtract k basic).getLast? <;> simp [lastOr, hx, lookup]

/-- A document in which the target key `Hostname` occurs twice: once at top
level (first) and once inside a nested object (second). -/
def c4doc : Obj :=
  [("Hostname", Json.str "first"),
   ("Nested", Json.obj [("Hostname", Json.str "second")])]

/-- C4 counterexample: on a basic-information document where `Hostname`
occurs twice, `extract_system_info` reports the LATER occurrence, refuting
the claim that the first occurrence encountered wins (later occurrences do
not replace it). -/
theorem extract_system_info_not_first_occurrence :
    lookup (extractSystemInfo c4doc) "Hostname" = some (Json.str "second") ∧
      Json.str "second" ≠ Json.str "first" := by
  constructor
  · simp [extractSystemInfo, c4doc, searchFields, searchValue,
      searchItems, searchItem, keysToExtract, setKey, lookup]
  · simp

/-! ## Source-type derivation (`process_zip_files.get_source_type`,
`CollectorManager.get_source_type`)

Python strings are modelled as `List Char`.  `str.replace(old, new)` with
the fixed patterns `'.json'` and `'%2F'` scans left to right replacing
every non-overlapping occurrence; `str.split('.')` always returns at least
one (possibly empty) piece. -/

/-- `filename.replace('.json', '')`: remove every occurrence of the
five-character pattern `.json`, scanning left to right. -/
def stripJsonOcc : List Char → List Char
  | '.' :: 'j' :: 's' :: 'o' :: 'n' :: rest => stripJsonOcc rest
  | c :: rest => c :: stripJsonOcc rest
  | [] => []

/-- `filename.replace('%2F', '.')`: the desanitizing substitution applied
by `CollectorManager.get_source_type` before deriving the source type. -/
def desanToDot : List Char → List Char
  | '%' :: '2' :: 'F' :: rest => '.' :: desanToDot rest
  | c :: rest => c :: desanToDot rest
  | [] => []

/-- Python `s.split(sep)` for a one-character separator: splitting the
empty string gives `['']`, and every separator occurrence opens a new
(possibly empty) piece. -/
def splitOnChar (sep : Char) : List Char → List (List Char)
  | [] => [[]]
  | c :: rest =>
    if c = sep then [] :: splitOnChar sep rest
    else
      match splitOnChar sep rest with
      | [] => [[c]]
      | p :: ps => (c :: p) :: ps

theorem splitOnChar_ne_nil (sep : Char) (s : List Char) : splitOnChar sep s ≠ [] := by
  induction s with
  | nil => simp [splitOnChar]
  | cons c rest ih =>
    by_cases h : c = sep
    · simp [splitOnChar, h]
    · simp only [splitOnChar, if_neg h]
      cases hx : splitOnChar sep rest with
      | nil => simp
      | cons p ps => simp

/-- `get_source_type` (`process_zip_files.py`): remove `.json`, split on
`.`, return the last piece, with `'Unknown'` as the fallback for an empty
piece list (`parts[-1] if parts else 'Unknown'`). -/
def getSourceType (filename : List Char) : List Char :=
  match splitOnChar '.' (stripJsonOcc filename) with
  | [] => "Unknown".toList
  | p :: ps => (p :: ps).getLast (by simp)

/-- `CollectorManager.get_source_type`: desanitize `%2F` to `.` first,
then derive exactly as `process_zip_files.get_source_type`. -/
def getSourceTypeManager (filename : List Char) : List Char :=
  getSourceType (desanToDot filename)

/-- C5 counterexample: the empty (degenerate) filename yields the empty
string, not the claimed `'Unknown'` sentinel — Python `split` never
returns an empty list, so the sentinel branch is unreachable; and
`.json` removal is occurrence removal, not suffix stripping: on
`'a.json.json'` the code yields `'a'` where stripping only the suffix and
taking the last dot segment would yield `'json'`. -/
theorem get_source_type_unknown_unreachable :
    getSourceType [] = [] ∧
      getSourceType [] ≠ "Unknown".toList ∧
      getSourceType "a.json.json".toList = "a".toList ∧
      "a".toList ≠ "json".toList := by
  refine ⟨by decide, by decide, by decide, by decide⟩

/-- C5, amended: source-type derivation removes every occurrence of
`.json`, splits the remainder on `.`, and returns the last piece; the
piece list is never empty, so the `'Unknown'` fallback is never taken and
degenerate names yield the (possibly empty) last piece instead.  The
desanitized name `Windows.System.PowerShell.json` yields `PowerShell`,
both directly and through the manager variant. -/
theorem get_source_type_last_segment :
    (∀ f : List Char,
        some (getSourceType f) = (splitOnChar '.' (stripJsonOcc f)).getLast?) ∧
      getSourceType "Windows.System.PowerShell.json".toList = "PowerShell".toList ∧
      getSourceTypeManager "Windows%2FSystem%2FPowerShell.json".toList = "PowerShell".toList := by
  refine ⟨?_, by decide, by decide⟩
  intro f
  unfold getSourceType
  cases hx : splitOnChar '.' (stripJsonOcc f) with
  | nil => exact absurd hx (splitOnChar_ne_nil _ _)
  | cons p ps => rw [List.getLast?_eq_getLast (p :: ps) (by simp)]

/-! ## Result validation (`CollectorManager.check_process_single_zip`,
`process_zip_files.check_process_single_zip`)

The validator only reads the results files and prints issues: it never
writes anything back, so it is embedded as a pure function from a parsed
record to the list of issues reported for that line.  The required-key set
is a Python `set`; it is listed here in sorted order, the order in which
the code prints the members of any issue (`', '.join(sorted(...))`). -/

def requiredKeys : List String :=
  ["Fqdn", "Hostname", "MACAddresses", "OS", "Platform", "PlatformVersion", "source_type"]

/-- One reported validation issue for one line. -/
inductive Issue where
  | invalidJson
  | sourceTypeMismatch (expected : String) (actual : Option Json)
  | missingKeys (keys : List String)
  | emptyValues (keys : List String)

/-- Python `json_obj.get('source_type') == expected` where `expected` is a
`str`: true exactly when the value is that same string (a missing key
gives `None`, and `None` or any non-string JSON value compares unequal). -/
def pyEqStr (x : Option Json) (s : String) : Bool :=
  match x with
  | some (Json.str t) => t == s
  | _ => false

/-- Python `json_obj.get(key) is None or json_obj.get(key) == ''` for a
key of the record: JSON `null` maps to Python `None`, and only the empty
string compares equal to `''`. -/
def pyNoneOrEmpty (x : Option Json) : Bool :=
  match x with
  | none => true
  | some Json.null => true
  | some (Json.str t) => t == ""
  | some _ => false

/-- The per-line checks of `check_process_single_zip` on a line that
parsed as a JSON object: a source-type mismatch issue, then a missing
required keys issue, then an empty-required-values issue, each emitted
only when non-trivial, in the order the code performs the checks. -/
def checkLine (expected : String) (o : Obj) : List Issue :=
  let mismatch :=
    if pyEqStr (lookup o "source_type") expected then ([] : List Issue)
    else [Issue.sourceTypeMismatch expected (lookup o "source_type")]
  let missing := requiredKeys.filter (fun k => !(hasKey o k))
  let missingIssue := if missing.isEmpty then ([] : List Issue) else [Issue.missingKeys missing]
  let emptyKs := requiredKeys.filter (fun k => hasKey o k && pyNoneOrEmpty (lookup o k))
  let emptyIssue := if emptyKs.isEmpty then ([] : List Issue) else [Issue.emptyValues emptyKs]
  mismatch ++ missingIssue ++ emptyIssue

/-- C6: a record that is missing only `Fqdn`, carries every other required
key with a non-`None`, non-empty value, and whose `source_type` equals the
one derived from the filename, receives exactly one issue: a missing-keys
issue naming exactly `Fqdn`.  The validator itself is a pure reader
(`checkLine` returns issues and nothing else; the Python function opens
the files read-only and never writes). -/
theorem validator_missing_fqdn_exactly_one (expected : String) (o : Obj)
    (hfq : hasKey o "Fqdn" = false)
    (hst : lookup o "source_type" = some (Json.str expected))
    (hothers : ∀ k, k ∈ requiredKeys → k ≠ "Fqdn" →
      hasKey o k = true ∧ pyNoneOrEmpty (lookup o k) = false) :
    checkLine expected o = [Issue.missingKeys ["Fqdn"]] := by
  have hHostname := hothers "Hostname" (by simp [requiredKeys]) (by decide)
  have hMAC := hothers "MACAddresses" (by simp [requiredKeys]) (by decide)
  have hOS := hothers "OS" (by simp [requiredKeys]) (by decide)
  have hPlatform := hothers "Platform" (by simp [requiredKeys]) (by decide)
  have hPV := hothers "PlatformVersion" (by simp [requiredKeys]) (by decide)
  have hSrc := hothers "source_type" (by simp [requiredKeys]) (by decide)
  rw [hst] at hSrc
  simp only [checkLine, requiredKeys, List.filter, hfq, hHostname.1, hHostname.2,
    hMAC.1, hMAC.2, hOS.1, hOS.2, hPlatform.1, hPlatform.2, hPV.1, hPV.2,
    hSrc.1, hSrc.2, hst, pyEqStr, Bool.not_true, Bool.not_false, Bool.and_true,
    Bool.and_false, beq_self_eq_true, if_true]
  simp

/-- A concrete record missing only `Fqdn`; every other required key is a
non-empty string and `source_type` matches the derived value `Users`. -/
def c6record : Obj :=
  [("source_type", Json.str "Users"),
   ("Hostname", Json.str "host1"),
   ("OS", Json.str "windows"),
   ("Platform", Json.str "x64"),
   ("PlatformVersion", Json.str "10.0"),
   ("MACAddresses", Json.str "aa:bb")]

/-- Witness for `validator_missing_fqdn_exactly_one` at `c6record`. -/
theorem validator_missing_fqdn_exactly_one_witness :
    checkLine "Users" c6record = [Issue.missingKeys ["Fqdn"]] :=
  validator_missing_fqdn_exactly_one "Users" c6record rfl rfl
    (by
      intro k hk hne
      fin_cases hk
      · exact absurd rfl hne
      · exact ⟨rfl, rfl⟩
      · exact ⟨rfl, rfl⟩
      · exact ⟨rfl, rfl⟩
      · exact ⟨rfl, rfl⟩
      · exact ⟨rfl, rfl⟩
      · exact ⟨rfl, rfl⟩)

/-! ## Spec file generation (`SpecFileGenerator.create_spec_file`,
`SpecFileGenerator.create_combined_spec_file`)

A template is a list of lines as returned by `readlines()` (each line
keeping its trailing newline); the generated document is also a list of
lines, written out verbatim with `writelines` in the template's detected
encoding.  Encoding detection and the file write itself are I/O and sit
outside this content-level model. -/

/-- `pat` is a prefix of the second list. -/
def isPrefixL : List Char → List Char → Bool
  | [], _ => true
  | _ :: _, [] => false
  | p :: ps, c :: rest => p == c && isPrefixL ps rest

/-- `pat` occurs contiguously somewhere in the second list. -/
def isInfixL (pat : List Char) : List Char → Bool
  | [] => pat.isEmpty
  | c :: rest => isPrefixL pat (c :: rest) || isInfixL pat rest

/-- Python `phrase in line`: contiguous-substring test. -/
def containsSub (line pat : String) : Bool :=
  isInfixL pat.toList line.toList

def startMarkerPhrase : String := "The list of artifacts and their args."

def endMarkerPhrase : String := "Can be ZIP"

/-- The loop of `find_section_markers`: scan lines with their index; a
line containing the start phrase (re)sets the start marker; otherwise a
line containing the end phrase sets the end marker and breaks; `-1`
(marker not found) is modelled as `none`. -/
def findSectionMarkersAux : List String → Nat → Option Nat → Option Nat × Option Nat
  | [], _, st => (st, none)
  | l :: rest, i, st =>
    if containsSub l startMarkerPhrase then findSectionMarkersAux rest (i + 1) (some i)
    else if containsSub l endMarkerPhrase then (st, some i)
    else findSectionMarkersAux rest (i + 1) st

def findSectionMarkers (lines : List String) : Option Nat × Option Nat :=
  findSectionMarkersAux lines 0 none

/-- The two-line enabled block appended per requested artifact:
`' <ArtifactName>:'` then `'    All: Y'`. -/
def artifactBlock (a : String) : List String :=
  [" " ++ a ++ ":\n", "    All: Y\n"]

/-- The fixed always-appended client-info enabled block. -/
def clientInfoBlock : List String :=
  [" Generic.Client.Info:\n", "    All: Y\n"]

/-- `create_spec_file` content: header through `start + 1` (the marker
line and the line after it), the artifact block, the client-info block,
then the footer from the end marker to the end of the template.  `none`
when either marker was not found. -/
def createSpecContent (template : List String) (artifact : String) : Option (List String) :=
  match findSectionMarkers template with
  | (some s, some e) =>
    some (template.take (s + 2) ++ artifactBlock artifact ++ clientInfoBlock ++ template.drop e)
  | _ => none

/-- `create_combined_spec_file` content: as `create_spec_file` but the
artifact loop appends one enabled block per requested artifact, in
order, before the client-info block. -/
def createCombinedSpecContent (template : List String) (artifacts : List String) :
    Option (List String) :=
  match findSectionMarkers template with
  | (some s, some e) =>
    let headerLines := template.take (s + 2)
    let footerLines := template.drop e
    let withArtifacts := artifacts.foldl (fun acc a => acc ++ artifactBlock a) headerLines
    some (withArtifacts ++ clientInfoBlock ++ footerLines)
  | _ => none

theorem foldl_append_blocks (artifacts : List String) (init : List String) :
    artifacts.foldl (fun acc a => acc ++ artifactBlock a) init
      = init ++ artifacts.flatMap artifactBlock := by
  induction artifacts generalizing init with
  | nil => simp
  | cons a rest ih => simp [List.foldl, ih, List.flatMap_cons]

/-- C3: whenever both sentinel markers are found, the generated combined
spec document is exactly: the template's lines up to and including the
line after the start marker (byte-identical header span), then one
two-line enabled block per requested artifact in request order, then the
fixed client-info block, then the template's lines from the end marker to
the end (byte-identical trailer span); and the single-artifact generator
produces exactly the combined document for the one-element list. -/
theorem spec_file_structure (template : List String) (artifacts : List String)
    (s e : Nat) (h : findSectionMarkers template = (some s, some e)) :
    createCombinedSpecContent template artifacts
        = some (template.take (s + 2) ++ artifacts.flatMap artifactBlock
            ++ clientInfoBlock ++ template.drop e) ∧
      ∀ a : String, createSpecContent template a = createCombinedSpecContent template [a] := by
  constructor
  · simp only [createCombinedSpecContent, h, foldl_append_blocks, List.append_assoc]
  · intro a
    simp only [createSpecContent, createCombinedSpecContent, h, foldl_append_blocks,
      List.flatMap_cons, List.flatMap_nil, List.append_nil, List.append_assoc]

/-- A small concrete template: marker lines at indices 1 (start) and 4
(end), with an `Artifacts:` line following the start marker. -/
def c3template : List String :=
  ["name: Test\n",
   "# The list of artifacts and their args.\n",
   "Artifacts:\n",
   " Old.Artifact:\n",
   "# Can be ZIP\n",
   "format: ZIP\n"]

/-- Witness for `spec_file_structure`: on the concrete template the
markers are found at 1 and 4 and the generated document has exactly the
claimed shape for the artifact set `[A.B.C, D.E]`. -/
theorem spec_file_structure_witness :
    findSectionMarkers c3template = (some 1, some 4) ∧
      createCombinedSpecContent c3template ["A.B.C", "D.E"]
        = some (["name: Test\n",
            "# The list of artifacts and their args.\n",
            "Artifacts:\n",
            " A.B.C:\n", "    All: Y\n",
            " D.E:\n", "    All: Y\n",
            " Generic.Client.Info:\n", "    All: Y\n",
            "# Can be ZIP\n",
            "format: ZIP\n"]) := by
  have hm : findSectionMarkers c3template = (some 1, some 4) := by decide
  refine ⟨hm, ?_⟩
  rw [(spec_file_structure c3template ["A.B.C", "D.E"] 1 4 hm).1]
  decide

/-! ## Batch coordination (`CollectorManager.run_batch_mode`,
`CollectorManager.process_single_artifact`,
`CollectorManager.update_artifact_statistics`)

Remote and file-system effects are abstracted into per-artifact step
outcomes supplied by the environment: whether `create_artifact_spec`,
`build_collector_exe` and `push_and_execute_collector` (which includes
transfer verification, execution and the `Exiting`-token check) report
success, and whether an exception escaped a step body (caught by the
`except` clause of `process_single_artifact`, which records a failure just
like a step returning failure).  Elapsed wall-clock time is an abstract
per-artifact quantity. -/

structure ArtifactRun where
  name : String
  elapsed : Nat
  specOk : Bool
  buildOk : Bool
  pushOk : Bool
  raises : Bool
deriving DecidableEq

/-- `self.status['artifact_stats']` plus the `processed` counter. -/
structure Stats where
  successful : List (String × Nat)
  failed : List (String × Nat)
  processed : Nat
deriving DecidableEq

/-- `update_artifact_statistics`: append the artifact's name and elapsed
time to the successful or failed list and bump `processed`. -/
def updateArtifactStatistics (st : Stats) (name : String) (success : Bool) (t : Nat) : Stats :=
  if success then
    { st with successful := st.successful ++ [(name, t)], processed := st.processed + 1 }
  else
    { st with failed := st.failed ++ [(name, t)], processed := st.processed + 1 }

/-- `process_single_artifact`: spec creation, then (only when
`build_collectors`) build and push/execute; the first failing step — or an
escaped exception — records a failed statistic and returns `False`;
otherwise a successful statistic is recorded and `True` returned. -/
def processSingleArtifact (buildCollectors : Bool) (a : ArtifactRun) (st : Stats) :
    Bool × Stats :=
  if a.raises then (false, updateArtifactStatistics st a.name false a.elapsed)
  else if !a.specOk then (false, updateArtifactStatistics st a.name false a.elapsed)
  else if buildCollectors then
    if !a.buildOk then (false, updateArtifactStatistics st a.name false a.elapsed)
    else if !a.pushOk then (false, updateArtifactStatistics st a.name false a.elapsed)
    else (true, updateArtifactStatistics st a.name true a.elapsed)
  else (true, updateArtifactStatistics st a.name true a.elapsed)

/-- One iteration of the `for artifact in artifacts` loop of
`run_batch_mode`: process the artifact; on failure clear
`overall_success`; either way carry on. -/
def loopStep (buildCollectors : Bool) (acc : Bool × Stats) (a : ArtifactRun) : Bool × Stats :=
  let r := processSingleArtifact buildCollectors a acc.2
  (acc.1 && r.1, r.2)

/-- The `for artifact in artifacts` loop of `run_batch_mode`: every
artifact is processed; a failure clears `overall_success` and the loop
carries on with the next artifact. -/
def runArtifactLoop (buildCollectors : Bool) (runs : List ArtifactRun) (st : Stats) :
    Bool × Stats :=
  runs.foldl (loopStep buildCollectors) (true, st)

/-- Whether an artifact's processing succeeds end to end. -/
def artifactSucceeds (buildCollectors : Bool) (a : ArtifactRun) : Bool :=
  !a.raises && a.specOk && (!buildCollectors || (a.buildOk && a.pushOk))

theorem processSingleArtifact_eq (buildCollectors : Bool) (a : ArtifactRun) (st : Stats) :
    processSingleArtifact buildCollectors a st
      = (artifactSucceeds buildCollectors a,
         updateArtifactStatistics st a.name (artifactSucceeds buildCollectors a) a.elapsed) := by
  cases hr : a.raises <;> cases hs : a.specOk <;> cases hb : a.buildOk <;>
    cases hp : a.pushOk <;> cases buildCollectors <;>
      simp [processSingleArtifact, artifactSucceeds, hr, hs, hb, hp]

theorem stats_mem_update (st : Stats) (name : String) (b : Bool) (t : Nat) (p : String × Nat) :
    (p ∈ st.failed → p ∈ (updateArtifactStatistics st name b t).failed) ∧
      (p ∈ st.successful → p ∈ (updateArtifactStatistics st name b t).successful) := by
  cases b <;> simp [updateArtifactStatistics] <;> intro h <;> simp [h]

theorem loop_general (bc : Bool) (runs : List ArtifactRun) :
    ∀ (b : Bool) (st : Stats),
      (runs.foldl (loopStep bc) (b, st)).2.processed = st.processed + runs.length ∧
      (runs.foldl (loopStep bc) (b, st)).2.successful.length
          + (runs.foldl (loopStep bc) (b, st)).2.failed.length
        = st.successful.length + st.failed.length + runs.length ∧
      (runs.foldl (loopStep bc) (b, st)).1 = (b && runs.all (artifactSucceeds bc)) ∧
      (∀ p : String × Nat, p ∈ st.failed → p ∈ (runs.foldl (loopStep bc) (b, st)).2.failed) ∧
      (∀ p : String × Nat, p ∈ st.successful →
        p ∈ (runs.foldl (loopStep bc) (b, st)).2.successful) ∧
      (∀ a ∈ runs, artifactSucceeds bc a = false →
        (a.name, a.elapsed) ∈ (runs.foldl (loopStep bc) (b, st)).2.failed) ∧
      (∀ a ∈ runs, artifactSucceeds bc a = true →
        (a.name, a.elapsed) ∈ (runs.foldl (loopStep bc) (b, st)).2.successful) := by
  induction runs with
  | nil => simp
  | cons a rest ih =>
    intro b st
    have hstep : loopStep bc (b, st) a
        = (b && artifactSucceeds bc a,
           updateArtifactStatistics st a.name (artifactSucceeds bc a) a.elapsed) := by
      simp [loopStep, processSingleArtifact_eq]
    set st2 := updateArtifactStatistics st a.name (artifactSucceeds bc a) a.elapsed with hst2
    have ihr := ih (b && artifactSucceeds bc a) st2
    have hfold : (a :: rest).foldl (loopStep bc) (b, st)
        = rest.foldl (loopStep bc) (b && artifactSucceeds bc a, st2) := by
      simp [List.foldl, hstep]
    rw [hfold]
    have hproc : st2.processed = st.processed + 1 := by
      cases h : artifactSucceeds bc a <;> simp [hst2, updateArtifactStatistics, h]
    have hlen : st2.successful.length + st2.failed.length
        = st.successful.length + st.failed.length + 1 := by
      cases h : artifactSucceeds bc a <;>
        simp [hst2, updateArtifactStatistics, h] <;> omega
    refine ⟨?_, ?_, ?_, ?_, ?_, ?_, ?_⟩
    · rw [ihr.1, hproc]
      simp
      omega
    · rw [ihr.2.1, hlen]
      simp
      omega
    · rw [ihr.2.2.1, List.all_cons, Bool.and_assoc]
    · intro p hp
      exact ihr.2.2.2.1 p ((stats_mem_update st a.name (artifactSucceeds bc a) a.elapsed p).1 hp)
    · intro p hp
      exact ihr.2.2.2.2.1 p ((stats_mem_update st a.name (artifactSucceeds bc a) a.elapsed p).2 hp)
    · intro x hx hfail
      rcases List.mem_cons.mp hx with hxa | hxrest
      · subst hxa
        apply ihr.2.2.2.1
        simp [hst2, updateArtifactStatistics, hfail]
      · exact ihr.2.2.2.2.2.1 x hxrest hfail
    · intro x hx hsucc
      rcases List.mem_cons.mp hx with hxa | hxrest
      · subst hxa
        apply ihr.2.2.2.2.1
        simp [hst2, updateArtifactStatistics, hsucc]
      · exact ihr.2.2.2.2.2.2 x hxrest hsucc

/-- C1: over any ordered artifact list, the batch loop processes every
artifact (the statistics counter grows by exactly the number of
artifacts, so a failure never aborts the loop), every failing artifact is
recorded in the failed statistics under its name with its elapsed time,
and every succeeding artifact is recorded in the successful statistics. -/
theorem batch_loop_records_failures_and_continues (bc : Bool) (runs : List ArtifactRun)
    (st : Stats) :
    (runArtifactLoop bc runs st).2.processed = st.processed + runs.length ∧
      (runArtifactLoop bc runs st).2.successful.length
          + (runArtifactLoop bc runs st).2.failed.length
        = st.successful.length + st.failed.length + runs.length ∧
      (∀ a ∈ runs, artifactSucceeds bc a = false →
        (a.name, a.elapsed) ∈ (runArtifactLoop bc runs st).2.failed) ∧
      (∀ a ∈ runs, artifactSucceeds bc a = true →
        (a.name, a.elapsed) ∈ (runArtifactLoop bc runs st).2.successful) := by
  have h := loop_general bc runs true st
  exact ⟨h.1, h.2.1, h.2.2.2.2.2.1, h.2.2.2.2.2.2⟩

/-- An empty statistics record, as set up by a fresh manager. -/
def emptyStats : Stats := { successful := [], failed := [], processed := 0 }

/-- Three concrete artifacts for the batch-aggregation scenario: only the
second one fails (its push step reports a hash-mismatch failure). -/
def c1runs : List ArtifactRun :=
  [{ name := "Art.One", elapsed := 3, specOk := true, buildOk := true,
     pushOk := true, raises := false },
   { name := "Art.Two", elapsed := 5, specOk := true, buildOk := true,
     pushOk := false, raises := false },
   { name := "Art.Three", elapsed := 7, specOk := true, buildOk := true,
     pushOk := true, raises := false }]

/-- Witness for `batch_loop_records_failures_and_continues`: with three
artifacts of which only the second one's push fails, the final statistics
show exactly 2 successful and 1 failed, the failed entry carries the
second artifact's name and elapsed time, and the third artifact was still
processed (it appears in the successful statistics). -/
theorem batch_loop_records_failures_and_continues_witness :
    ("Art.Two", 5) ∈ (runArtifactLoop true c1runs emptyStats).2.failed ∧
      ("Art.Three", 7) ∈ (runArtifactLoop true c1runs emptyStats).2.successful ∧
      (runArtifactLoop true c1runs emptyStats).2.successful.length = 2 ∧
      (runArtifactLoop true c1runs emptyStats).2.failed.length = 1 ∧
      (runArtifactLoop true c1runs emptyStats).2.processed = 3 := by
  refine ⟨?_, ?_, by decide, by decide, by decide⟩
  · exact (batch_loop_records_failures_and_continues true c1runs emptyStats).2.2.1
      (c1runs.get ⟨1, by decide⟩) (by decide) (by decide)
  · exact (batch_loop_records_failures_and_continues true c1runs emptyStats).2.2.2
      (c1runs.get ⟨2, by decide⟩) (by decide) (by decide)

/-! ## `run_batch_mode` as a whole

The remaining environment bits: whether `clean_all_directories` reports
success, whether `init_directories` raises (the one body statement whose
exception reaches the surrounding `except` handler — every other callee
catches internally and returns a status), whether
`initialize_connections` succeeds (which is when `self.winrm_session` is
assigned), whether the batch-level `pull_collection_data` and
`process_collection_data` succeed, and whether a WinRM session already
existed on entry. -/

structure BatchEnv where
  runs : List ArtifactRun
  cleanOk : Bool
  initRaises : Bool
  connectOk : Bool
  pullOk : Bool
  processOk : Bool
  sessionBefore : Bool
deriving DecidableEq

/-- The mutable status object of the manager, restricted to the fields
`run_batch_mode` touches. -/
structure BatchStatus where
  processing : Bool
  completed : Bool
  taskStartTime : Option Nat
  totalArtifacts : Nat
  stats : Stats
deriving DecidableEq

/-- What one `run_batch_mode` call produced: the returned boolean, the
final status object, how many times the batch-level pull pass
(`pull_collection_data`) and the batch-level processing pass
(`process_collection_data`) were attempted, and whether the `finally`
block attempted remote cleanup. -/
structure BatchResult where
  returned : Bool
  status : BatchStatus
  pullAttempts : Nat
  processAttempts : Nat
  cleanupAttempted : Bool
deriving DecidableEq

/-- The `try` body of `run_batch_mode`: early returns for directory
cleanup failure, an `init_directories` exception (caught by the `except`
clause, which returns `False`), and connection failure when building;
then the artifact loop; then — only when collectors were built AND every
artifact succeeded — the single batch-level pull followed (on pull
success) by the single batch-level processing pass.  Returns the result
boolean, the final statistics and the two pass-attempt counters. -/
def runBatchBody (bc : Bool) (env : BatchEnv) (st : Stats) : Bool × Stats × Nat × Nat :=
  if !env.cleanOk then (false, st, 0, 0)
  else if env.initRaises then (false, st, 0, 0)
  else if bc && !env.connectOk then (false, st, 0, 0)
  else
    let r := runArtifactLoop bc env.runs st
    if bc && r.1 then
      if !env.pullOk then (false, r.2, 1, 0)
      else if !env.processOk then (false, r.2, 1, 1)
      else (true, r.2, 1, 1)
    else (r.1, r.2, 0, 0)

/-- `run_batch_mode`: on entry `processing := True`, `completed := False`,
`total_artifacts := len(artifacts)`, `processed := 0` ( the success and
failure lists are NOT reset); then the `try` body; and the `finally`
block unconditionally sets `processing := False`, `completed := True`,
`task_start_time := None` and attempts remote cleanup exactly when a
WinRM session exists (one existed on entry, or `initialize_connections`
succeeded on this run, which requires reaching it: directories cleaned
and `init_directories` not raising, with `build_collectors` set). -/
def runBatchMode (bc : Bool) (env : BatchEnv) (st0 : BatchStatus) : BatchResult :=
  let stats0 : Stats := { st0.stats with processed := 0 }
  let body := runBatchBody bc env stats0
  let sessionFinal :=
    env.sessionBefore || (bc && env.cleanOk && !env.initRaises && env.connectOk)
  { returned := body.1
    status :=
      { processing := false
        completed := true
        taskStartTime := none
        totalArtifacts := env.runs.length
        stats := body.2.1 }
    pullAttempts := body.2.2.1
    processAttempts := body.2.2.2
    cleanupAttempted := sessionFinal }

/-- A two-artifact environment in which the second artifact's push
fails. -/
def c2env : BatchEnv :=
  { runs :=
      [{ name := "Art.One", elapsed := 3, specOk := true, buildOk := true,
         pushOk := true, raises := false },
       { name := "Art.Two", elapsed := 5, specOk := true, buildOk := true,
         pushOk := false, raises := false }]
    cleanOk := true, initRaises := false, connectOk := true,
    pullOk := true, processOk := true, sessionBefore := false }

/-- A fresh status object. -/
def freshStatus : BatchStatus :=
  { processing := false, completed := false, taskStartTime := none,
    totalArtifacts := 0, stats := emptyStats }

/-- C2 counterexample: collectors are requested, both artifacts complete
their individual processing (2 processed), but because the second
artifact's push failed, the batch-level pull/process pass is not run at
all (0 attempts instead of the claimed exactly-once), losing the bundle
of the artifact that succeeded. -/
theorem batch_pull_skipped_on_partial_failure :
    (runBatchMode true c2env freshStatus).status.stats.processed = 2 ∧
      (runBatchMode true c2env freshStatus).pullAttempts = 0 ∧
      (0 : Nat) ≠ 1 := by
  refine ⟨by decide, by decide, by decide⟩

/-- C2, amended: when build+push+execute were requested and setup
succeeded, the single batch-level pull/process pass runs exactly once IF
every artifact succeeded, and is skipped entirely (0 attempts) as soon as
any artifact failed; in every execution whatsoever it runs at most once
(never per artifact), and the processing pass is attempted only after a
successful pull. -/
theorem batch_pull_once_iff_all_success (env : BatchEnv) (st0 : BatchStatus)
    (hclean : env.cleanOk = true) (hinit : env.initRaises = false)
    (hconn : env.connectOk = true) :
    ((runBatchMode true env st0).pullAttempts
        = if env.runs.all (artifactSucceeds true) then 1 else 0) ∧
      (∀ (bc : Bool) (env2 : BatchEnv) (st2 : BatchStatus),
        (runBatchMode bc env2 st2).pullAttempts ≤ 1 ∧
          (runBatchMode bc env2 st2).processAttempts ≤ (runBatchMode bc env2 st2).pullAttempts) := by
  constructor
  · have hloop := (loop_general true env.runs true { st0.stats with processed := 0 }).2.2.1
    rw [Bool.true_and] at hloop
    simp only [runBatchMode, runBatchBody, hclean, hinit, hconn, Bool.not_true,
      Bool.and_false, Bool.false_and, Bool.and_true, if_false, Bool.true_and]
    simp only [runArtifactLoop] at hloop
    simp only [runArtifactLoop, hloop]
    cases hall : env.runs.all (artifactSucceeds true) <;>
      cases hp : env.pullOk <;> cases hq : env.processOk <;> simp [hp, hq]
  · intro bc env2 st2
    simp only [runBatchMode, runBatchBody]
    cases env2.cleanOk <;> cases env2.initRaises <;> cases bc <;> cases env2.connectOk <;>
      cases h : (runArtifactLoop false env2.runs { st2.stats with processed := 0 }).1 <;>
      cases h2 : (runArtifactLoop true env2.runs { st2.stats with processed := 0 }).1 <;>
      cases env2.pullOk <;> cases env2.processOk <;> simp [h, h2]

/-- Witness for `batch_pull_once_iff_all_success`: an all-successful
two-artifact environment pulls exactly once; the partial-failure
environment `c2env` pulls zero times. -/
def c2envAllOk : BatchEnv :=
  { runs :=
      [{ name := "Art.One", elapsed := 3, specOk := true, buildOk := true,
         pushOk := true, raises := false },
       { name := "Art.Two", elapsed := 5, specOk := true, buildOk := true,
         pushOk := true, raises := false }]
    cleanOk := true, initRaises := false, connectOk := true,
    pullOk := true, processOk := true, sessionBefore := false }

theorem batch_pull_once_iff_all_success_witness :
    (runBatchMode true c2envAllOk freshStatus).pullAttempts = 1 ∧
      (runBatchMode true c2env freshStatus).pullAttempts = 0 := by
  constructor
  · have h := (batch_pull_once_iff_all_success c2envAllOk freshStatus rfl rfl rfl).1
    rw [h]
    decide
  · decide

/-- C9: however `run_batch_mode` exits — success, failure at any early
return, or an exception caught on the way out — the `finally` block
leaves the status object with `processing = False`, `completed = True`
and `task_start_time = None`; remote cleanup is attempted whenever a
session existed on entry, and also whenever this run established one
(collectors requested and setup reached connection initialization
successfully). -/
theorem run_batch_mode_final_state (bc : Bool) (env : BatchEnv) (st0 : BatchStatus) :
    (runBatchMode bc env st0).status.processing = false ∧
      (runBatchMode bc env st0).status.completed = true ∧
      (runBatchMode bc env st0).status.taskStartTime = none ∧
      (env.sessionBefore = true → (runBatchMode bc env st0).cleanupAttempted = true) ∧
      (bc = true → env.cleanOk = true → env.initRaises = false → env.connectOk = true →
        (runBatchMode bc env st0).cleanupAttempted = true) := by
  refine ⟨rfl, rfl, rfl, ?_, ?_⟩
  · intro h
    simp [runBatchMode, h]
  · intro h1 h2 h3 h4
    simp [runBatchMode, h1, h2, h3, h4]

/-- Witness for `run_batch_mode_final_state`: a run whose second artifact
fails still ends with `processing = False`, `completed = True`,
`task_start_time = None`, and cleanup attempted (a session was
established this run). -/
theorem run_batch_mode_final_state_witness :
    (runBatchMode true c2env freshStatus).status.processing = false ∧
      (runBatchMode true c2env freshStatus).status.completed = true ∧
      (runBatchMode true c2env freshStatus).status.taskStartTime = none ∧
      (runBatchMode true c2env freshStatus).cleanupAttempted = true := by
  have h := run_batch_mode_final_state true c2env freshStatus
  exact ⟨h.1, h.2.1, h.2.2.1, h.2.2.2.2 rfl rfl rfl rfl⟩

/-! ## Pattern-based bundle pull (`CollectorManager.pull_files_by_pattern`)

The remote listing command's exit status and standard output, the SSH
client creation outcome, and each individual `sftp.get`'s outcome are
environment inputs.  Python `stdout.strip().split('\n')` followed by the
`[f.strip() for f in files if f.strip()]` comprehension is mirrored
character-for-character. -/

/-- The whitespace set of Python `str.strip()` (ASCII range). -/
def pyIsSpace (c : Char) : Bool :=
  c == ' ' || c == '\t' || c == '\n' || c == '\r' || c == '\x0b' || c == '\x0c'

/-- Python `s.strip()`: drop leading and trailing whitespace. -/
def trimL (s : List Char) : List Char :=
  ((s.dropWhile pyIsSpace).reverse.dropWhile pyIsSpace).reverse

/-- `pull_files_by_pattern`: a non-zero listing status fails; an empty
parsed file list fails (`No files found matching pattern`); a failed SSH
client creation fails; otherwise each listed file is attempted in order —
a per-file failure is logged and skipped via `continue` — and the
operation returns `True`.  The second component records every attempted
file with its outcome. -/
def pullFilesByPattern (listStatus : Int) (stdout : List Char) (sshOk : Bool)
    (pullOk : List Char → Bool) : Bool × List (List Char × Bool) :=
  if listStatus ≠ 0 then (false, [])
  else
    let files := ((splitOnChar '\n' (trimL stdout)).map trimL).filter (fun f => f ≠ [])
    if files = [] then (false, [])
    else if !sshOk then (false, [])
    else (true, files.map (fun f => (f, pullOk f)))

/-- C8 counterexample: the listing command succeeds (status 0) but
matches zero remote files; `pull_files_by_pattern` completes without
raising yet returns failure, refuting the claim that the operation
returns success whenever it completes without raising, even with zero
matches. -/
theorem pull_zero_files_returns_failure :
    pullFilesByPattern 0 "  ".toList true (fun _ => true) = (false, []) ∧
      (false : Bool) ≠ true := by
  refine ⟨by decide, by decide⟩

/-- C8, amended: when the listing succeeds, at least one file matched and
the SSH client could be created, the operation returns success no matter
how many individual pulls fail (each failure is logged and skipped, and
every matched file is still attempted); but an empty match list is
reported as failure, not success. -/
theorem pull_success_despite_per_file_failures (listStatus : Int) (stdout : List Char)
    (sshOk : Bool) (pullOk : List Char → Bool)
    (h0 : listStatus = 0)
    (hfiles : ((splitOnChar '\n' (trimL stdout)).map trimL).filter (fun f => f ≠ []) ≠ [])
    (hssh : sshOk = true) :
    (pullFilesByPattern listStatus stdout sshOk pullOk).1 = true ∧
      (pullFilesByPattern listStatus stdout sshOk pullOk).2.map Prod.fst
        = ((splitOnChar '\n' (trimL stdout)).map trimL).filter (fun f => f ≠ []) ∧
      (∀ (stdout2 : List Char) (pull2 : List Char → Bool),
        ((splitOnChar '\n' (trimL stdout2)).map trimL).filter (fun f => f ≠ []) = [] →
          (pullFilesByPattern 0 stdout2 sshOk pull2).1 = false) := by
  subst h0 hssh
  refine ⟨?_, ?_, ?_⟩
  · simp only [pullFilesByPattern]
    rw [if_neg (by simp : ¬((0 : Int) ≠ 0)), if_neg hfiles]
    simp
  · simp only [pullFilesByPattern]
    rw [if_neg (by simp : ¬((0 : Int) ≠ 0)), if_neg hfiles]
    have hid : (Prod.fst ∘ fun f : List Char => (f, pullOk f)) = id := funext (fun _ => rfl)
    simp [List.map_map, hid]
  · intro stdout2 pull2 hempty
    simp only [pullFilesByPattern]
    rw [if_neg (by simp : ¬((0 : Int) ≠ 0)), if_pos hempty]

/-- Witness for `pull_success_despite_per_file_failures`: two listed
files, the second pull fails, the operation still succeeds and both files
were attempted. -/
theorem pull_success_despite_per_file_failures_witness :
    (pullFilesByPattern 0 " a.zip\n\nb.zip ".toList true
        (fun f => f = "a.zip".toList)).1 = true ∧
      (pullFilesByPattern 0 " a.zip\n\nb.zip ".toList true
          (fun f => f = "a.zip".toList)).2
        = [("a.zip".toList, true), ("b.zip".toList, false)] := by
  have h := pull_success_despite_per_file_failures 0 " a.zip\n\nb.zip ".toList true
    (fun f => f = "a.zip".toList) rfl (by decide) rfl
  exact ⟨h.1, by decide⟩

/-! ## Timestamp canonicalization (`add_epoch_timestamps`,
`detect_and_convert_timestamps`, `convert_iso_to_epoch`)

`convert_iso_to_epoch` accepts exactly the strict format
`YYYY-MM-DDTHH:MM:SSZ` — `datetime.strptime` requires a four-digit year
and, via the `datetime` constructor, a calendar-valid date with year at
least 1 — and returns integer seconds since the Unix epoch (the value is
UTC-localized, so the epoch is computed directly from the fields). -/

def dval (c : Char) : Nat := c.toNat - 48

def isLeap (y : Nat) : Bool := y % 4 == 0 && (y % 100 != 0 || y % 400 == 0)

def daysInMonth (y m : Nat) : Nat :=
  if m = 2 then (if isLeap y then 29 else 28)
  else if m = 4 ∨ m = 6 ∨ m = 9 ∨ m = 11 then 30
  else 31

/-- Days between 1970-01-01 and the given civil date (proleptic
Gregorian, year ≥ 1, all intermediate quantities non-negative). -/
def daysFromCivil (y m d : Nat) : Int :=
  let yAdj : Int := if m ≤ 2 then (y : Int) - 1 else (y : Int)
  let era : Int := yAdj / 400
  let yoe : Int := yAdj - era * 400
  let mp : Int := ((m : Int) + 9) % 12
  let doy : Int := (153 * mp + 2) / 5 + (d : Int) - 1
  let doe : Int := yoe * 365 + yoe / 4 - yoe / 100 + doy
  era * 146097 + doe - 719468

/-- `convert_iso_to_epoch`: parse the exact 20-character form
`YYYY-MM-DDTHH:MM:SSZ`, validate the calendar fields, and return epoch
seconds; any other shape or value gives `None`. -/
def convertIso (s : String) : Option Int :=
  match s.toList with
  | [a1, a2, a3, a4, '-', b1, b2, '-', c1, c2, 'T',
     e1, e2, ':', f1, f2, ':', g1, g2, 'Z'] =>
    if a1.isDigit && a2.isDigit && a3.isDigit && a4.isDigit && b1.isDigit && b2.isDigit
        && c1.isDigit && c2.isDigit && e1.isDigit && e2.isDigit && f1.isDigit && f2.isDigit
        && g1.isDigit && g2.isDigit then
      let y := 1000 * dval a1 + 100 * dval a2 + 10 * dval a3 + dval a4
      let mo := 10 * dval b1 + dval b2
      let d := 10 * dval c1 + dval c2
      let h := 10 * dval e1 + dval e2
      let mi := 10 * dval f1 + dval f2
      let se := 10 * dval g1 + dval g2
      if 1 ≤ y ∧ 1 ≤ mo ∧ mo ≤ 12 ∧ 1 ≤ d ∧ d ≤ daysInMonth y mo
          ∧ h ≤ 23 ∧ mi ≤ 59 ∧ se ≤ 59 then
        some (daysFromCivil y mo d * 86400 + (h : Int) * 3600 + (mi : Int) * 60 + (se : Int))
      else none
    else none
  | _ => none

/-- The fixed list of known timestamp-bearing keys (pass 1). -/
def timestampKeys : List String :=
  ["visit_time", "KeyLastWriteTimestamp", "LastUpdated", "KeyMTime"]

/-- The fixed list of time-indicator words (pass 2, heuristic). -/
def possibleTimeKeys : List String :=
  ["time", "date", "timestamp", "modified", "created", "accessed",
   "updated", "last", "mtime", "ctime", "atime"]

/-- Python `str.lower()` on the ASCII range. -/
def lowerL (s : List Char) : List Char := s.map Char.toLower

/-- `any(time_indicator.lower() in key.lower() for ...)`: the heuristic
key test of `detect_and_convert_timestamps`. -/
def matchesTime (k : String) : Bool :=
  possibleTimeKeys.any (fun ti => isInfixL (lowerL ti.toList) (lowerL k.toList))

/-- One key of the pass-1 loop of `add_epoch_timestamps`: if the key is
present with a string value that parses in the strict ISO form, set the
`<key>_epoch` sibling. -/
def addEpochStep (o : Obj) (k : String) : Obj :=
  match lookup o k with
  | some (Json.str s) =>
    match convertIso s with
    | some e => setKey o (k ++ "_epoch") (Json.num e)
    | none => o
  | _ => o

/-- The pass-1 body for one parsed record: try every known timestamp key. -/
def addEpochObj (o : Obj) : Obj := timestampKeys.foldl addEpochStep o

/-- The conversion decision for one key of the pass-2 loop of
`detect_and_convert_timestamps`: a key matching a time indicator whose
`_epoch` sibling does not yet exist and whose value is a string in the
strict ISO form yields the epoch value to add; everything else yields
nothing. -/
def detectTry (o : Obj) (k : String) : Option Json :=
  if matchesTime k && !(hasKey o (k ++ "_epoch")) then
    match lookup o k with
    | some (Json.str s) =>
      match convertIso s with
      | some e => some (Json.num e)
      | none => none
    | _ => none
  else none

/-- One key of the pass-2 loop: apply the conversion decision, raising the
`conversions_made` flag when a sibling was added. -/
def detectStep (st : Obj × Bool) (k : String) : Obj × Bool :=
  match detectTry st.1 k with
  | some v => (setKey st.1 (k ++ "_epoch") v, true)
  | none => st

/-- The pass-2 body for one parsed record: iterate over a snapshot of the
record's keys (`list(json_obj.keys())`), threading the mutated record and
the `conversions_made` flag. -/
def detectObj (o : Obj) : Obj × Bool :=
  (o.map Prod.fst).foldl detectStep (o, false)

/-- One line of a results file, as the passes see it: either a line that
failed to parse as JSON (kept verbatim) or the parsed record.  The model
identifies a JSON line with its parsed object — `json.dumps` then
`json.loads` round-trips — so serialization is invisible at this layer. -/
inductive RLine where
  | text (s : String)
  | record (o : Obj)

/-- Pass 1 on one line: non-JSON lines pass through, records get the
known-key treatment. -/
def addLine : RLine → RLine
  | RLine.text s => RLine.text s
  | RLine.record o => RLine.record (addEpochObj o)

/-- Pass 1 over a whole file: every record is processed and the file is
then rewritten unconditionally (`add_epoch_timestamps` has no
`conversions_made` guard); the boolean is that unconditional write. -/
def addEpochFile (ls : List RLine) : List RLine × Bool :=
  (ls.map addLine, true)

/-- Pass 2's per-line accumulation: append the processed line to
`updated_lines` and fold the line's conversion flag into
`conversions_made`. -/
def detFileStep (acc : List RLine × Bool) (l : RLine) : List RLine × Bool :=
  match l with
  | RLine.text s => (acc.1 ++ [RLine.text s], acc.2)
  | RLine.record o => (acc.1 ++ [RLine.record (detectObj o).1], acc.2 || (detectObj o).2)

/-- Pass 2 over a whole file: records are processed in order accumulating
`updated_lines` and the file-level `conversions_made` flag; the file is
rewritten only when the flag is set. -/
def detectFile (ls : List RLine) : List RLine × Bool :=
  ls.foldl detFileStep ([], false)

/-- One canonicalizer run on one record: pass 1 then pass 2 (content). -/
def canonObj (o : Obj) : Obj := (detectObj (addEpochObj o)).1

/-- One full canonicalizer run over a file: pass 1 then pass 2 (content;
pass 2's non-write case leaves the same content because no record
changed). -/
def canonFile (ls : List RLine) : List RLine := (detectFile (addEpochFile ls).1).1

theorem hasKey_of_lookup (o : Obj) (k : String) (v : Json) (h : lookup o k = some v) :
    hasKey o k = true := by
  rw [hasKey_eq_isSome, h]
  rfl

theorem lookup_none_of_hasKey_false (o : Obj) (k : String) (h : hasKey o k = false) :
    lookup o k = none := by
  rw [hasKey_eq_isSome] at h
  cases hx : lookup o k with
  | none => rfl
  | some v => rw [hx] at h; simp at h

theorem mem_keys_of_hasKey (o : Obj) (k : String) (h : hasKey o k = true) :
    k ∈ o.map Prod.fst := by
  induction o with
  | nil => simp [hasKey] at h
  | cons hd tl ih =>
    obtain ⟨k0, v0⟩ := hd
    by_cases h0 : k0 = k
    · simp [h0]
    · simp only [hasKey, if_neg h0] at h
      simp [ih h]

theorem epoch_ne_self (k : String) : k ++ "_epoch" ≠ k := by
  intro h
  have hlen := congrArg String.length h
  rw [String.length_append] at hlen
  have h6 : ("_epoch" : String).length = 6 := rfl
  omega

theorem epoch_append_inj (k1 k2 : String) (h : k1 ++ "_epoch" = k2 ++ "_epoch") :
    k1 = k2 := by
  have hd := congrArg String.data h
  simp only [String.data_append] at hd
  exact String.ext (List.append_cancel_right hd)

/-- What a positive conversion decision implies about the record. -/
theorem detectTry_some (o : Obj) (k : String) (v : Json) (h : detectTry o k = some v) :
    matchesTime k = true ∧ hasKey o (k ++ "_epoch") = false ∧
      ∃ s e, lookup o k = some (Json.str s) ∧ convertIso s = some e ∧ v = Json.num e := by
  unfold detectTry at h
  by_cases hc : matchesTime k && !(hasKey o (k ++ "_epoch"))
  · rw [if_pos hc] at h
    simp only [Bool.and_eq_true, Bool.not_eq_true'] at hc
    refine ⟨hc.1, hc.2, ?_⟩
    split at h
    next s heq =>
      split at h
      next e he =>
        refine ⟨s, e, heq, he, ?_⟩
        injection h with h2
        exact h2.symm
      next he => cases h
    next _ _ => cases h
  · rw [if_neg hc] at h
    cases h

/-- A record is detect-saturated when every time-matching key with a
convertible string value already has its `_epoch` sibling. -/
def detectSaturated (o : Obj) : Prop :=
  ∀ k s e, matchesTime k = true → lookup o k = some (Json.str s) →
    convertIso s = some e → hasKey o (k ++ "_epoch") = true

/-- On a saturated record, no key yields a conversion. -/
theorem detectTry_none_of_saturated (o : Obj) (k : String) (hD : detectSaturated o) :
    detectTry o k = none := by
  cases hx : detectTry o k with
  | none => rfl
  | some v =>
    obtain ⟨hm, hk, s, e, hl, he, hv⟩ := detectTry_some o k v hx
    rw [hD k s e hm hl he] at hk
    cases hk

/-- Each pass-2 step preserves key presence. -/
theorem detectStep_hasKey (st : Obj × Bool) (k k2 : String) (h : hasKey st.1 k2 = true) :
    hasKey (detectStep st k).1 k2 = true := by
  unfold detectStep
  cases hx : detectTry st.1 k with
  | none => exact h
  | some v =>
    by_cases h2 : k ++ "_epoch" = k2
    · subst h2
      exact hasKey_setKey_self _ _ _
    · simpa [hasKey_setKey_ne _ _ _ _ h2] using h

/-- Each pass-2 step preserves the value of every already-present key:
the only assignment targets a sibling that was absent. -/
theorem detectStep_lookup (st : Obj × Bool) (k k2 : String) (h : hasKey st.1 k2 = true) :
    lookup (detectStep st k).1 k2 = lookup st.1 k2 := by
  unfold detectStep
  cases hx : detectTry st.1 k with
  | none => rfl
  | some v =>
    obtain ⟨hm, hk, _, _, _, _, _⟩ := detectTry_some _ _ _ hx
    have h2 : k ++ "_epoch" ≠ k2 := by
      intro he
      rw [he] at hk
      rw [h] at hk
      cases hk
    simpa using lookup_setKey_ne st.1 (k ++ "_epoch") k2 v h2

/-- A key the pass-2 step newly introduces carries an integer value. -/
theorem detectStep_new_num (st : Obj × Bool) (k k2 : String)
    (h0 : hasKey st.1 k2 = false) (h1 : hasKey (detectStep st k).1 k2 = true) :
    ∃ e2 : Int, lookup (detectStep st k).1 k2 = some (Json.num e2) := by
  unfold detectStep at h1 ⊢
  cases hx : detectTry st.1 k with
  | none =>
    rw [hx] at h1
    have h1' : hasKey st.1 k2 = true := h1
    rw [h1'] at h0
    cases h0
  | some v =>
    rw [hx] at h1
    obtain ⟨hm, hk, s, e, hl, he, hv⟩ := detectTry_some _ _ _ hx
    have h1' : hasKey (setKey st.1 (k ++ "_epoch") v) k2 = true := h1
    show ∃ e2 : Int, lookup (setKey st.1 (k ++ "_epoch") v) k2 = some (Json.num e2)
    by_cases h2 : k ++ "_epoch" = k2
    · subst h2
      subst hv
      exact ⟨e, lookup_setKey_self _ _ _⟩
    · rw [hasKey_setKey_ne _ _ _ _ h2] at h1'
      rw [h1'] at h0
      cases h0

/-- Pass-2 key iteration preserves key presence. -/
theorem detectFold_hasKey (ks : List String) :
    ∀ (st : Obj × Bool) (k2 : String), hasKey st.1 k2 = true →
      hasKey (ks.foldl detectStep st).1 k2 = true := by
  induction ks with
  | nil => intro st k2 h; exact h
  | cons k ks ih =>
    intro st k2 h
    exact ih (detectStep st k) k2 (detectStep_hasKey st k k2 h)

/-- Pass-2 key iteration preserves the value of every key present at the
start of the iteration. -/
theorem detectFold_lookup (ks : List String) :
    ∀ (st : Obj × Bool) (k2 : String), hasKey st.1 k2 = true →
      lookup (ks.foldl detectStep st).1 k2 = lookup st.1 k2 := by
  induction ks with
  | nil => intro st k2 h; rfl
  | cons k ks ih =>
    intro st k2 h
    rw [List.foldl_cons, ih (detectStep st k) k2 (detectStep_hasKey st k k2 h),
      detectStep_lookup st k k2 h]

/-- Any key pass-2 introduces that was absent at the start carries an
integer epoch value. -/
theorem detectFold_new_num (ks : List String) :
    ∀ (st : Obj × Bool) (k2 : String), hasKey st.1 k2 = false →
      hasKey (ks.foldl detectStep st).1 k2 = true →
      ∃ e2 : Int, lookup (ks.foldl detectStep st).1 k2 = some (Json.num e2) := by
  induction ks with
  | nil =>
    intro st k2 h0 h1
    rw [List.foldl_nil] at h1
    rw [h1] at h0
    cases h0
  | cons k ks ih =>
    intro st k2 h0 h1
    rw [List.foldl_cons] at h1 ⊢
    cases hmid : hasKey (detectStep st k).1 k2 with
    | false => exact ih (detectStep st k) k2 hmid h1
    | true =>
      obtain ⟨e2, heq⟩ := detectStep_new_num st k k2 h0 hmid
      refine ⟨e2, ?_⟩
      rw [detectFold_lookup ks (detectStep st k) k2 hmid, heq]

/-- If the conversion decision for a matching, convertible key is
negative, its sibling must already be present. -/
theorem detectTry_none_sibling (o : Obj) (k : String) (s : String) (e : Int)
    (hn : detectTry o k = none) (hm : matchesTime k = true)
    (hl : lookup o k = some (Json.str s)) (he : convertIso s = some e) :
    hasKey o (k ++ "_epoch") = true := by
  unfold detectTry at hn
  by_cases hc : matchesTime k && !(hasKey o (k ++ "_epoch"))
  · rw [if_pos hc, hl] at hn
    have hn2 : (match convertIso s with
      | some e => some (Json.num e)
      | none => (none : Option Json)) = none := hn
    rw [he] at hn2
    cases hn2
  · simp only [Bool.and_eq_true, Bool.not_eq_true', Bool.not_eq_true] at hc
    rcases Decidable.not_and_iff_or_not.mp hc with h | h
    · exact absurd hm h
    · simpa using h

/-- A matching key that holds a convertible string value when the
iteration starts has its `_epoch` sibling by the time the iteration is
done. -/
theorem detectFold_processed (ks : List String) :
    ∀ (st : Obj × Bool) (k : String) (s : String) (e : Int), k ∈ ks →
      matchesTime k = true → lookup st.1 k = some (Json.str s) → convertIso s = some e →
      hasKey ((ks.foldl detectStep st)).1 (k ++ "_epoch") = true := by
  induction ks with
  | nil => intro st k s e hmem; cases hmem
  | cons k0 ks ih =>
    intro st k s e hmem hm hl he
    rw [List.foldl_cons]
    rcases List.mem_cons.mp hmem with hk | hk
    · subst hk
      apply detectFold_hasKey
      unfold detectStep
      cases hx : detectTry st.1 k with
      | some v => exact hasKey_setKey_self _ _ _
      | none => exact detectTry_none_sibling st.1 k s e hx hm hl he
    · have hpres : lookup (detectStep st k0).1 k = lookup st.1 k :=
        detectStep_lookup st k0 k (hasKey_of_lookup _ _ _ hl)
      exact ih (detectStep st k0) k s e hk hm (by rw [hpres]; exact hl) he

/-- After one pass-2 run, the record is detect-saturated: every matching
key with a convertible string value has its sibling. -/
theorem detectObj_saturated (o : Obj) : detectSaturated ((detectObj o).1) := by
  unfold detectObj
  intro k s e hm hl he
  cases hk : hasKey o k with
  | true =>
    have hlo : lookup o k = some (Json.str s) := by
      rw [← detectFold_lookup (o.map Prod.fst) (o, false) k hk]
      exact hl
    exact detectFold_processed (o.map Prod.fst) (o, false) k s e
      (mem_keys_of_hasKey o k hk) hm hlo he
  | false =>
    cases hfin : hasKey ((o.map Prod.fst).foldl detectStep (o, false)).1 k with
    | false =>
      rw [lookup_none_of_hasKey_false _ _ hfin] at hl
      cases hl
    | true =>
      obtain ⟨e2, heq⟩ := detectFold_new_num (o.map Prod.fst) (o, false) k hk hfin
      rw [heq] at hl
      cases hl

/-- On a saturated record every pass-2 step is the identity. -/
theorem detectStep_fix (st : Obj × Bool) (k : String) (hD : detectSaturated st.1) :
    detectStep st k = st := by
  unfold detectStep
  rw [detectTry_none_of_saturated st.1 k hD]

/-- On a saturated record pass 2 changes nothing and makes no
conversions. -/
theorem detectObj_fix (o : Obj) (hD : detectSaturated o) : detectObj o = (o, false) := by
  unfold detectObj
  generalize o.map Prod.fst = ks
  induction ks with
  | nil => rfl
  | cons k ks ih =>
    rw [List.foldl_cons, detectStep_fix (o, false) k hD, ih]

/-- Pass-1 consistency at one key: when the key holds a convertible
string value, its sibling holds exactly the converted epoch. -/
def epochConsistent (k : String) (o : Obj) : Prop :=
  ∀ s e, lookup o k = some (Json.str s) → convertIso s = some e →
    lookup o (k ++ "_epoch") = some (Json.num e)

/-- A consistent key makes its pass-1 step the identity: the step
re-assigns the very value the sibling already holds. -/
theorem addEpochStep_fix (o : Obj) (k : String) (hq : epochConsistent k o) :
    addEpochStep o k = o := by
  unfold addEpochStep
  split
  next s heq =>
    split
    next e he => exact setKey_lookup_same _ _ _ (hq s e heq he)
    next => rfl
  next => rfl

/-- The pass-1 step only writes the `_epoch` sibling of its key. -/
theorem addEpochStep_lookup (o : Obj) (k k2 : String) (h2 : k ++ "_epoch" ≠ k2) :
    lookup (addEpochStep o k) k2 = lookup o k2 := by
  unfold addEpochStep
  split
  next s heq =>
    split
    next e he => exact lookup_setKey_ne _ _ _ _ h2
    next => rfl
  next => rfl

/-- The pass-1 step leaves its own key consistent. -/
theorem addEpochStep_establishes (o : Obj) (k : String) :
    epochConsistent k (addEpochStep o k) := by
  intro s2 e2 hl2 he2
  cases hx : lookup o k with
  | none =>
    have hid : addEpochStep o k = o := by unfold addEpochStep; rw [hx]
    rw [hid, hx] at hl2
    cases hl2
  | some w =>
    cases w with
    | str s =>
      cases he : convertIso s with
      | none =>
        have hid : addEpochStep o k = o := by
          unfold addEpochStep
          rw [hx]
          show (match convertIso s with
            | some e => setKey o (k ++ "_epoch") (Json.num e)
            | none => o) = o
          rw [he]
        rw [hid, hx] at hl2
        injection hl2 with h3
        injection h3 with h4
        subst h4
        rw [he2] at he
        cases he
      | some e =>
        have hid : addEpochStep o k = setKey o (k ++ "_epoch") (Json.num e) := by
          unfold addEpochStep
          rw [hx]
          show (match convertIso s with
            | some e => setKey o (k ++ "_epoch") (Json.num e)
            | none => o) = setKey o (k ++ "_epoch") (Json.num e)
          rw [he]
        rw [hid] at hl2 ⊢
        rw [lookup_setKey_ne o (k ++ "_epoch") k (Json.num e) (epoch_ne_self k), hx] at hl2
        injection hl2 with h3
        injection h3 with h4
        subst h4
        rw [he2] at he
        injection he with h5
        subst h5
        exact lookup_setKey_self _ _ _
    | null =>
      have hid : addEpochStep o k = o := by unfold addEpochStep; rw [hx]
      rw [hid, hx] at hl2
      cases hl2
    | bool b =>
      have hid : addEpochStep o k = o := by unfold addEpochStep; rw [hx]
      rw [hid, hx] at hl2
      cases hl2
    | num n =>
      have hid : addEpochStep o k = o := by unfold addEpochStep; rw [hx]
      rw [hid, hx] at hl2
      cases hl2
    | arr xs =>
      have hid : addEpochStep o k = o := by unfold addEpochStep; rw [hx]
      rw [hid, hx] at hl2
      cases hl2
    | obj fs =>
      have hid : addEpochStep o k = o := by unfold addEpochStep; rw [hx]
      rw [hid, hx] at hl2
      cases hl2

/-- The pass-1 step at a different key preserves consistency (its only
write target differs from both the key and its sibling). -/
theorem addEpochStep_preserves (o : Obj) (k k2 : String)
    (hq : epochConsistent k2 o) (h1 : k ++ "_epoch" ≠ k2)
    (h2 : k ++ "_epoch" ≠ k2 ++ "_epoch") :
    epochConsistent k2 (addEpochStep o k) := by
  intro s e hl he
  rw [addEpochStep_lookup o k k2 h1] at hl
  rw [addEpochStep_lookup o k _ h2]
  exact hq s e hl he

/-- The pass-1 fold over the four concrete keys, spelled out. -/
theorem addEpochObj_eq (o : Obj) :
    addEpochObj o
      = addEpochStep (addEpochStep (addEpochStep
          (addEpochStep o "visit_time") "KeyLastWriteTimestamp") "LastUpdated") "KeyMTime" := rfl

/-- After pass 1 every known timestamp key is consistent: each step
establishes its own key and the later steps write only their own distinct
siblings. -/
theorem addEpochObj_establishes (o : Obj) :
    ∀ k ∈ timestampKeys, epochConsistent k (addEpochObj o) := by
  intro k hk
  rw [addEpochObj_eq]
  fin_cases hk
  · exact addEpochStep_preserves _ _ _
      (addEpochStep_preserves _ _ _
        (addEpochStep_preserves _ _ _
          (addEpochStep_establishes o "visit_time")
          (by decide) (by decide))
        (by decide) (by decide))
      (by decide) (by decide)
  · exact addEpochStep_preserves _ _ _
      (addEpochStep_preserves _ _ _
        (addEpochStep_establishes _ "KeyLastWriteTimestamp")
        (by decide) (by decide))
      (by decide) (by decide)
  · exact addEpochStep_preserves _ _ _
      (addEpochStep_establishes _ "LastUpdated") (by decide) (by decide)
  · exact addEpochStep_establishes _ "KeyMTime"

/-- On a record whose known timestamp keys are all consistent, pass 1
changes nothing. -/
theorem addEpochObj_fix (o : Obj) (h : ∀ k ∈ timestampKeys, epochConsistent k o) :
    addEpochObj o = o := by
  have h1 := h "visit_time" (by simp [timestampKeys])
  have h2 := h "KeyLastWriteTimestamp" (by simp [timestampKeys])
  have h3 := h "LastUpdated" (by simp [timestampKeys])
  have h4 := h "KeyMTime" (by simp [timestampKeys])
  rw [addEpochObj_eq, addEpochStep_fix o _ h1, addEpochStep_fix o _ h2,
    addEpochStep_fix o _ h3, addEpochStep_fix o _ h4]

/-- Pass 2 preserves pass-1 consistency: it never modifies an existing
key, and any key it introduces holds an integer, never a string. -/
theorem detect_preserves_consistent (o : Obj) (k : String) (hq : epochConsistent k o) :
    epochConsistent k ((detectObj o).1) := by
  unfold detectObj
  intro s e hl he
  cases hk : hasKey o k with
  | true =>
    have hpre : lookup ((o.map Prod.fst).foldl detectStep (o, false)).1 k = lookup o k :=
      detectFold_lookup _ _ _ hk
    rw [hpre] at hl
    have h2 := hq s e hl he
    rw [detectFold_lookup _ _ _ (hasKey_of_lookup _ _ _ h2)]
    exact h2
  | false =>
    cases hfin : hasKey ((o.map Prod.fst).foldl detectStep (o, false)).1 k with
    | false =>
      rw [lookup_none_of_hasKey_false _ _ hfin] at hl
      cases hl
    | true =>
      obtain ⟨e2, heq⟩ := detectFold_new_num _ _ _ hk hfin
      rw [heq] at hl
      cases hl

/-- On the output of one canonicalizer run, pass 1 is the identity and
pass 2 changes nothing and raises no conversion flag. -/
theorem canonObj_second (o : Obj) :
    addEpochObj (canonObj o) = canonObj o ∧ detectObj (canonObj o) = (canonObj o, false) := by
  have hsat : detectSaturated (canonObj o) := detectObj_saturated (addEpochObj o)
  have hcons : ∀ k ∈ timestampKeys, epochConsistent k (canonObj o) := fun k hk =>
    detect_preserves_consistent (addEpochObj o) k (addEpochObj_establishes o k hk)
  exact ⟨addEpochObj_fix _ hcons, detectObj_fix _ hsat⟩

/-- Pass 2 on one line: the content part. -/
def detLineMap : RLine → RLine
  | RLine.text s => RLine.text s
  | RLine.record o => RLine.record (detectObj o).1

/-- Pass 2 on one line: the conversion flag part. -/
def detLineFlag : RLine → Bool
  | RLine.text _ => false
  | RLine.record o => (detectObj o).2

/-- One full canonicalizer run on one line. -/
def canonLine : RLine → RLine
  | RLine.text s => RLine.text s
  | RLine.record o => RLine.record (canonObj o)

theorem detectFile_foldl_general (ls : List RLine) :
    ∀ acc : List RLine × Bool,
      ls.foldl detFileStep acc = (acc.1 ++ ls.map detLineMap, acc.2 || ls.any detLineFlag) := by
  induction ls with
  | nil => intro acc; simp
  | cons l ls ih =>
    intro acc
    rw [List.foldl_cons, ih]
    cases l with
    | text s => simp [detFileStep, detLineMap, detLineFlag]
    | record o => simp [detFileStep, detLineMap, detLineFlag, Bool.or_assoc]

theorem detectFile_eq (ls : List RLine) :
    detectFile ls = (ls.map detLineMap, ls.any detLineFlag) := by
  unfold detectFile
  rw [detectFile_foldl_general]
  simp

theorem canonFile_eq (ls : List RLine) : canonFile ls = ls.map canonLine := by
  unfold canonFile addEpochFile
  rw [detectFile_eq]
  simp only [List.map_map]
  have hfun : detLineMap ∘ addLine = canonLine := by
    funext l
    cases l <;> rfl
  rw [hfun]

/-- C7, amended: a second canonicalizer run over already-converted files
leaves every file's content unchanged; the heuristic pass makes no
conversion and hence performs no write on the second run; and the
known-key pass, though it still rewrites the file unconditionally, writes
back byte-identical content. -/
theorem canonicalizer_second_run_content_noop (ls : List RLine) :
    canonFile (canonFile ls) = canonFile ls ∧
      (detectFile (canonFile ls)).2 = false ∧
      (addEpochFile (canonFile ls)).1 = canonFile ls := by
  have hline : ∀ l : RLine, canonLine (canonLine l) = canonLine l := by
    intro l
    cases l with
    | text s => rfl
    | record o =>
      show RLine.record (canonObj (canonObj o)) = RLine.record (canonObj o)
      have h := canonObj_second o
      have hco : canonObj (canonObj o) = canonObj o := by
        calc canonObj (canonObj o) = (detectObj (addEpochObj (canonObj o))).1 := rfl
          _ = (detectObj (canonObj o)).1 := by rw [h.1]
          _ = (canonObj o, false).1 := by rw [h.2]
          _ = canonObj o := rfl
      rw [hco]
  refine ⟨?_, ?_, ?_⟩
  · rw [canonFile_eq, canonFile_eq, List.map_map]
    have : canonLine ∘ canonLine = canonLine := funext hline
    rw [this]
  · rw [canonFile_eq, detectFile_eq]
    have hflag : ∀ l : RLine, detLineFlag (canonLine l) = false := by
      intro l
      cases l with
      | text s => rfl
      | record o =>
        show (detectObj (canonObj o)).2 = false
        rw [(canonObj_second o).2]
    induction ls with
    | nil => rfl
    | cons l ls ih =>
      simp only [List.map_cons, List.any_cons, hflag l, Bool.false_or]
      simpa using ih
  · rw [canonFile_eq]
    show (ls.map canonLine).map addLine = ls.map canonLine
    rw [List.map_map]
    have : addLine ∘ canonLine = canonLine := by
      funext l
      cases l with
      | text s => rfl
      | record o =>
        show RLine.record (addEpochObj (canonObj o)) = RLine.record (canonObj o)
        rw [(canonObj_second o).1]
    rw [this]

/-- A results file holding one record with a known timestamp key, one
heuristically-detected timestamp key and one non-JSON line. -/
def c7file : List RLine :=
  [RLine.record
      [("LastUpdated", Json.str "2025-06-04T20:08:02Z"),
       ("seen_date", Json.str "2025-06-04T20:08:02Z")],
   RLine.text "not json"]

/-- C7 counterexample: on a file whose first run really converted both
keys, the second canonicalizer run still performs a file write — the
known-key pass rewrites unconditionally — refuting the claim that the
second run produces no file writes; the heuristic pass indeed stays
silent and all content is unchanged. -/
theorem canonicalizer_second_run_still_writes :
    (detectFile c7file).2 = true ∧
      (addEpochFile (canonFile c7file)).2 = true ∧
      (detectFile (canonFile c7file)).2 = false ∧
      canonFile (canonFile c7file) = canonFile c7file := by
  refine ⟨rfl, rfl, rfl, rfl⟩

/-! ## Text-level file rewriting discipline
(`update_json_with_system_info`, `add_epoch_timestamps`,
`update_json_with_source_type`)

All rewriting passes share one skeleton: read the file, keep
`[line.strip() for line in f if line.strip()]`, transform each kept line
(`json.loads` → mutate → `json.dumps`, with non-JSON lines appended as
their stripped selves), and write `'\n'.join(updated_lines) + '\n'`.
`json.dumps` output is modelled by `dumpsObj` with the default separators
and `ensure_ascii` escaping; what `json.loads` accepts is abstracted into
a `parse` function (a line that is valid JSON but not an object makes the
real pass abort on a `TypeError` before any write, so the written case —
the case the claim speaks about — has every parsed line an object). -/

/-- Lower-case hexadecimal digits. -/
def hexDigit (n : Nat) : Char :=
  match n % 16 with
  | 0 => '0' | 1 => '1' | 2 => '2' | 3 => '3' | 4 => '4' | 5 => '5'
  | 6 => '6' | 7 => '7' | 8 => '8' | 9 => '9' | 10 => 'a' | 11 => 'b'
  | 12 => 'c' | 13 => 'd' | 14 => 'e' | _ => 'f'

/-- `\uXXXX` escape for a control or non-ASCII character. -/
def uescape (c : Char) : List Char :=
  ['\\', 'u', hexDigit (c.toNat / 4096), hexDigit (c.toNat / 256),
   hexDigit (c.toNat / 16), hexDigit c.toNat]

/-- `json.dumps` character escaping with `ensure_ascii=True`. -/
def escapeChar (c : Char) : List Char :=
  if c = '"' then ['\\', '"']
  else if c = '\\' then ['\\', '\\']
  else if c = '\n' then ['\\', 'n']
  else if c = '\r' then ['\\', 'r']
  else if c = '\t' then ['\\', 't']
  else if c.toNat < 32 || c.toNat ≥ 127 then uescape c
  else [c]

/-- A JSON string literal: quote, escaped characters, quote. -/
def escapeStr (s : String) : List Char :=
  '"' :: (s.toList.flatMap escapeChar ++ ['"'])

/-- Decimal digits of a natural number (structural on fuel ≥ n + 1). -/
def natDigits : Nat → Nat → List Char
  | 0, _ => []
  | fuel + 1, n =>
    if n < 10 then [hexDigit n]
    else natDigits fuel (n / 10) ++ [hexDigit (n % 10)]

/-- The decimal rendering of an integer. -/
def intChars (n : Int) : List Char :=
  if n < 0 then '-' :: natDigits (n.natAbs + 1) n.natAbs
  else natDigits (n.toNat + 1) n.toNat

mutual

/-- `json.dumps` with the default separators `', '` and `': '`. -/
def dumpsVal : Json → List Char
  | Json.null => ['n', 'u', 'l', 'l']
  | Json.bool true => ['t', 'r', 'u', 'e']
  | Json.bool false => ['f', 'a', 'l', 's', 'e']
  | Json.num n => intChars n
  | Json.str s => escapeStr s
  | Json.arr items => '[' :: (dumpsItems items ++ [']'])
  | Json.obj fields => '{' :: (dumpsFields fields ++ ['}'])

/-- Array items joined by `', '`. -/
def dumpsItems : List Json → List Char
  | [] => []
  | [x] => dumpsVal x
  | x :: y :: rest => dumpsVal x ++ [',', ' '] ++ dumpsItems (y :: rest)

/-- Object fields `"key": value` joined by `', '`. -/
def dumpsFields : List (String × Json) → List Char
  | [] => []
  | [(k, v)] => escapeStr k ++ [':', ' '] ++ dumpsVal v
  | (k, v) :: f2 :: rest =>
    escapeStr k ++ [':', ' '] ++ dumpsVal v ++ [',', ' '] ++ dumpsFields (f2 :: rest)

end

/-- `json.dumps(json_obj)` for the top-level record, always a dict. -/
def dumpsObj (o : Obj) : List Char := '{' :: (dumpsFields o ++ ['}'])

/-- One kept line after transformation: a line that parses as a record is
replaced by the serialized transformed record, any other line is kept as
its stripped self. -/
def renderLine (parse : List Char → Option Obj) (perObj : Obj → Obj) (l : List Char) :
    List Char :=
  match parse l with
  | some o => dumpsObj (perObj o)
  | none => l

/-- `[line.strip() for line in f if line.strip()]`. -/
def keptLines (content : List Char) : List (List Char) :=
  ((splitOnChar '\n' content).map trimL).filter (fun l => l ≠ [])

/-- Python `sep.join(pieces)`. -/
def joinSep (sep : List Char) : List (List Char) → List Char
  | [] => []
  | [x] => x
  | x :: y :: rest => x ++ sep ++ joinSep sep (y :: rest)

/-- The whole rewrite skeleton:
`'\n'.join(transformed kept lines) + '\n'`. -/
def processContent (parse : List Char → Option Obj) (perObj : Obj → Obj)
    (content : List Char) : List Char :=
  joinSep ['\n'] ((keptLines content).map (renderLine parse perObj)) ++ ['\n']

/-- The per-record mutation of the enrichment pass
(`update_json_with_system_info`): `json_obj['source_type'] = source_type`
then `json_obj.update(system_info)`. -/
def updateObj (srcType : String) (info : Obj) (o : Obj) : Obj :=
  info.foldl (fun acc kv => setKey acc kv.1 kv.2) (setKey o "source_type" (Json.str srcType))

/-- The enrichment pass at the file-content level. -/
def updateFileContent (parse : List Char → Option Obj) (srcType : String) (info : Obj)
    (content : List Char) : List Char :=
  processContent parse (updateObj srcType info) content

/-- The known-key timestamp pass at the file-content level. -/
def addEpochContent (parse : List Char → Option Obj) (content : List Char) : List Char :=
  processContent parse addEpochObj content

/-- The heuristic timestamp pass at the file-content level, in the case
where it actually rewrites the file. -/
def detectContentWritten (parse : List Char → Option Obj) (content : List Char) : List Char :=
  processContent parse (fun o => (detectObj o).1) content

theorem hexDigit_ne_nl (n : Nat) : hexDigit n ≠ '\n' := by
  unfold hexDigit
  split <;> decide

theorem uescape_ne_nl (c : Char) : ∀ x ∈ uescape c, x ≠ '\n' := by
  intro x hx
  simp only [uescape, List.mem_cons, List.not_mem_nil, or_false] at hx
  rcases hx with h | h | h | h | h | h <;> subst h
  · decide
  · decide
  · exact hexDigit_ne_nl _
  · exact hexDigit_ne_nl _
  · exact hexDigit_ne_nl _
  · exact hexDigit_ne_nl _

theorem escapeChar_ne_nl (c : Char) : ∀ x ∈ escapeChar c, x ≠ '\n' := by
  intro x hx
  unfold escapeChar at hx
  split at hx
  · simp only [List.mem_cons, List.not_mem_nil, or_false] at hx
    rcases hx with h | h <;> subst h <;> decide
  · split at hx
    · simp only [List.mem_cons, List.not_mem_nil, or_false] at hx
      rcases hx with h | h <;> subst h <;> decide
    · split at hx
      · simp only [List.mem_cons, List.not_mem_nil, or_false] at hx
        rcases hx with h | h <;> subst h <;> decide
      · split at hx
        · simp only [List.mem_cons, List.not_mem_nil, or_false] at hx
          rcases hx with h | h <;> subst h <;> decide
        · split at hx
          · simp only [List.mem_cons, List.not_mem_nil, or_false] at hx
            rcases hx with h | h <;> subst h <;> decide
          · split at hx
            · exact uescape_ne_nl c x hx
            · next hq1 hq2 hq3 hq4 hq5 hq6 =>
              simp only [List.mem_cons, List.not_mem_nil, or_false] at hx
              subst hx
              exact hq3

theorem natDigits_ne_nl (fuel : Nat) : ∀ n : Nat, ∀ x ∈ natDigits fuel n, x ≠ '\n' := by
  induction fuel with
  | zero => intro n x hx; cases hx
  | succ fuel ih =>
    intro n x hx
    unfold natDigits at hx
    split at hx
    · simp only [List.mem_cons, List.not_mem_nil, or_false] at hx
      subst hx
      exact hexDigit_ne_nl _
    · rcases List.mem_append.mp hx with h | h
      · exact ih _ x h
      · simp only [List.mem_cons, List.not_mem_nil, or_false] at h
        subst h
        exact hexDigit_ne_nl _

theorem intChars_ne_nl (n : Int) : ∀ x ∈ intChars n, x ≠ '\n' := by
  intro x hx
  unfold intChars at hx
  split at hx
  · rcases List.mem_cons.mp hx with h | h
    · subst h; decide
    · exact natDigits_ne_nl _ _ x h
  · exact natDigits_ne_nl _ _ x hx

theorem escapeStr_ne_nl (s : String) : ∀ x ∈ escapeStr s, x ≠ '\n' := by
  intro x hx
  unfold escapeStr at hx
  rcases List.mem_cons.mp hx with h | h
  · subst h; decide
  · rcases List.mem_append.mp h with h2 | h2
    · obtain ⟨c, hc, hcc⟩ := List.mem_flatMap.mp h2
      exact escapeChar_ne_nl c x hcc
    · simp only [List.mem_cons, List.not_mem_nil, or_false] at h2
      subst h2
      decide

/-- No serialized JSON value contains a raw newline: `ensure_ascii`
escapes every control character. -/
theorem dumps_ne_nl :
    ∀ n : Nat,
      (∀ j : Json, sizeOf j ≤ n → ∀ x ∈ dumpsVal j, x ≠ '\n') ∧
      (∀ items : List Json, sizeOf items ≤ n → ∀ x ∈ dumpsItems items, x ≠ '\n') ∧
      (∀ fields : List (String × Json), sizeOf fields ≤ n →
        ∀ x ∈ dumpsFields fields, x ≠ '\n') := by
  intro n
  induction n using Nat.strong_induction_on with
  | _ n ih =>
    refine ⟨?_, ?_, ?_⟩
    · intro j hj x hx
      match j with
      | Json.null =>
        rw [dumpsVal] at hx
        simp only [List.mem_cons, List.not_mem_nil, or_false] at hx
        rcases hx with h | h | h | h <;> subst h <;> decide
      | Json.bool true =>
        rw [dumpsVal] at hx
        simp only [List.mem_cons, List.not_mem_nil, or_false] at hx
        rcases hx with h | h | h | h <;> subst h <;> decide
      | Json.bool false =>
        rw [dumpsVal] at hx
        simp only [List.mem_cons, List.not_mem_nil, or_false] at hx
        rcases hx with h | h | h | h | h <;> subst h <;> decide
      | Json.num m => rw [dumpsVal] at hx; exact intChars_ne_nl m x hx
      | Json.str s => rw [dumpsVal] at hx; exact escapeStr_ne_nl s x hx
      | Json.arr items =>
        rw [dumpsVal] at hx
        have hsz : sizeOf items < n := by
          have : sizeOf items < sizeOf (Json.arr items) := by
            first | (simp; omega) | simp
          omega
        rcases List.mem_cons.mp hx with h | h
        · subst h; decide
        · rcases List.mem_append.mp h with h2 | h2
          · exact (ih (sizeOf items) hsz).2.1 items le_rfl x h2
          · simp only [List.mem_cons, List.not_mem_nil, or_false] at h2
            subst h2; decide
      | Json.obj fields =>
        rw [dumpsVal] at hx
        have hsz : sizeOf fields < n := by
          have : sizeOf fields < sizeOf (Json.obj fields) := by
            first | (simp; omega) | simp
          omega
        rcases List.mem_cons.mp hx with h | h
        · subst h; decide
        · rcases List.mem_append.mp h with h2 | h2
          · exact (ih (sizeOf fields) hsz).2.2 fields le_rfl x h2
          · simp only [List.mem_cons, List.not_mem_nil, or_false] at h2
            subst h2; decide
    · intro items hsz x hx
      match items with
      | [] => rw [dumpsItems] at hx; cases hx
      | [j] =>
        rw [dumpsItems] at hx
        have : sizeOf j < n := by
          have : sizeOf j < sizeOf [j] := by first | (simp; omega) | simp
          omega
        exact (ih (sizeOf j) this).1 j le_rfl x hx
      | j :: j2 :: rest =>
        rw [dumpsItems] at hx
        have h1 : sizeOf j < n := by
          have : sizeOf j < sizeOf (j :: j2 :: rest) := by first | (simp; omega) | simp
          omega
        have h2 : sizeOf (j2 :: rest) < n := by
          have : sizeOf (j2 :: rest) < sizeOf (j :: j2 :: rest) := by
            first | (simp; omega) | simp
          omega
        rcases List.mem_append.mp hx with h | h
        · rcases List.mem_append.mp h with h3 | h3
          · exact (ih (sizeOf j) h1).1 j le_rfl x h3
          · simp only [List.mem_cons, List.not_mem_nil, or_false] at h3
            rcases h3 with h4 | h4 <;> subst h4 <;> decide
        · exact (ih (sizeOf (j2 :: rest)) h2).2.1 (j2 :: rest) le_rfl x h
    · intro fields hsz x hx
      match fields with
      | [] => rw [dumpsFields] at hx; cases hx
      | [(k, v)] =>
        rw [dumpsFields] at hx
        have hv : sizeOf v < n := by
          have : sizeOf v < sizeOf [(k, v)] := by first | (simp; omega) | simp
          omega
        rcases List.mem_append.mp hx with h | h
        · rcases List.mem_append.mp h with h2 | h2
          · exact escapeStr_ne_nl k x h2
          · simp only [List.mem_cons, List.not_mem_nil, or_false] at h2
            rcases h2 with h3 | h3 <;> subst h3 <;> decide
        · exact (ih (sizeOf v) hv).1 v le_rfl x h
      | (k, v) :: f2 :: rest =>
        rw [dumpsFields] at hx
        have hv : sizeOf v < n := by
          have : sizeOf v < sizeOf ((k, v) :: f2 :: rest) := by first | (simp; omega) | simp
          omega
        have hr : sizeOf (f2 :: rest) < n := by
          have : sizeOf (f2 :: rest) < sizeOf ((k, v) :: f2 :: rest) := by
            first | (simp; omega) | simp
          omega
        rcases List.mem_append.mp hx with h | h
        · rcases List.mem_append.mp h with h2 | h2
          · rcases List.mem_append.mp h2 with h3 | h3
            · rcases List.mem_append.mp h3 with h4 | h4
              · exact escapeStr_ne_nl k x h4
              · simp only [List.mem_cons, List.not_mem_nil, or_false] at h4
                rcases h4 with h5 | h5 <;> subst h5 <;> decide
            · exact (ih (sizeOf v) hv).1 v le_rfl x h3
          · simp only [List.mem_cons, List.not_mem_nil, or_false] at h2
            rcases h2 with h3 | h3 <;> subst h3 <;> decide
        · exact (ih (sizeOf (f2 :: rest)) hr).2.2 (f2 :: rest) le_rfl x h

theorem dumpsObj_ne_nil (o : Obj) : dumpsObj o ≠ [] := by
  simp [dumpsObj]

theorem dumpsObj_head (o : Obj) : (dumpsObj o).head? = some '{' := rfl

theorem dumpsObj_getLast (o : Obj) : (dumpsObj o).getLast? = some '}' := by
  unfold dumpsObj
  rw [show ('{' :: (dumpsFields o ++ ['}'])) = ('{' :: dumpsFields o) ++ '}' :: [] by simp]
  rw [List.getLast?_append_cons]
  rfl

theorem dumpsObj_ne_nl (o : Obj) : ∀ x ∈ dumpsObj o, x ≠ '\n' := by
  intro x hx
  unfold dumpsObj at hx
  rcases List.mem_cons.mp hx with h | h
  · subst h; decide
  · rcases List.mem_append.mp h with h2 | h2
    · exact (dumps_ne_nl (sizeOf o)).2.2 o le_rfl x h2
    · simp only [List.mem_cons, List.not_mem_nil, or_false] at h2
      subst h2; decide

theorem mem_of_trimL (l : List Char) (c : Char) (h : c ∈ trimL l) : c ∈ l := by
  unfold trimL at h
  rw [List.mem_reverse] at h
  have h2 : c ∈ (l.dropWhile pyIsSpace).reverse := (List.dropWhile_sublist _).subset h
  rw [List.mem_reverse] at h2
  exact (List.dropWhile_sublist _).subset h2

theorem dropWhile_head_false (l : List Char) :
    ∀ c : Char, (l.dropWhile pyIsSpace).head? = some c → pyIsSpace c = false := by
  induction l with
  | nil => intro c h; cases h
  | cons a l ih =>
    intro c h
    cases ha : pyIsSpace a with
    | true =>
      rw [List.dropWhile_cons, if_pos (by rw [ha])] at h
      exact ih c h
    | false =>
      rw [List.dropWhile_cons, if_neg (by rw [ha]; simp)] at h
      injection h with h2
      rw [← h2]
      exact ha

/-- A list whose first and last characters are not whitespace strips to
itself. -/
theorem trimL_eq_self (l : List Char)
    (h1 : ∀ c, l.head? = some c → pyIsSpace c = false)
    (h2 : ∀ c, l.getLast? = some c → pyIsSpace c = false) :
    trimL l = l := by
  unfold trimL
  have e1 : l.dropWhile pyIsSpace = l := by
    cases l with
    | nil => rfl
    | cons a m =>
      rw [List.dropWhile_cons, if_neg]
      rw [h1 a rfl]
      simp
  rw [e1]
  have e2 : l.reverse.dropWhile pyIsSpace = l.reverse := by
    cases hr : l.reverse with
    | nil => rfl
    | cons a m =>
      rw [List.dropWhile_cons, if_neg]
      have hla : l.getLast? = some a := by
        rw [← List.head?_reverse, hr]
        rfl
      rw [h2 a hla]
      simp
  rw [e2, List.reverse_reverse]

theorem dropWhile_suffix_decomp (l : List Char) :
    ∃ t, l = t ++ l.dropWhile pyIsSpace := by
  induction l with
  | nil => exact ⟨[], rfl⟩
  | cons a m ih =>
    cases ha : pyIsSpace a with
    | true =>
      obtain ⟨t, ht⟩ := ih
      refine ⟨a :: t, ?_⟩
      rw [List.dropWhile_cons, if_pos (by rw [ha])]
      rw [List.cons_append, ← ht]
    | false =>
      refine ⟨[], ?_⟩
      rw [List.dropWhile_cons, if_neg (by rw [ha]; simp)]
      rfl

theorem trimL_head_false (l : List Char) :
    ∀ c : Char, (trimL l).head? = some c → pyIsSpace c = false := by
  intro c h
  unfold trimL at h
  rw [List.head?_reverse] at h
  obtain ⟨t, ht⟩ := dropWhile_suffix_decomp ((l.dropWhile pyIsSpace).reverse)
  cases hN : (l.dropWhile pyIsSpace).reverse.dropWhile pyIsSpace with
  | nil => rw [hN] at h; cases h
  | cons b m =>
    rw [hN] at h ht
    have hrev : ((l.dropWhile pyIsSpace).reverse).getLast? = some c := by
      rw [ht, List.getLast?_append_cons]
      exact h
    rw [List.getLast?_reverse] at hrev
    exact dropWhile_head_false l c hrev

theorem trimL_getLast_false (l : List Char) :
    ∀ c : Char, (trimL l).getLast? = some c → pyIsSpace c = false := by
  intro c h
  unfold trimL at h
  rw [List.getLast?_reverse] at h
  exact dropWhile_head_false _ c h

theorem trimL_idem (l : List Char) : trimL (trimL l) = trimL l :=
  trimL_eq_self _ (trimL_head_false l) (trimL_getLast_false l)

theorem splitOnChar_no_sep (sep : Char) (s : List Char) :
    ∀ piece ∈ splitOnChar sep s, sep ∉ piece := by
  induction s with
  | nil =>
    intro piece hp
    simp only [splitOnChar, List.mem_cons, List.not_mem_nil, or_false] at hp
    subst hp
    simp
  | cons a s ih =>
    intro piece hp
    by_cases ha : a = sep
    · rw [splitOnChar, if_pos ha] at hp
      rcases List.mem_cons.mp hp with h | h
      · subst h; simp
      · exact ih piece h
    · rw [splitOnChar, if_neg ha] at hp
      cases hx : splitOnChar sep s with
      | nil => exact absurd hx (splitOnChar_ne_nil sep s)
      | cons p ps =>
        rw [hx] at hp
        rcases List.mem_cons.mp hp with h | h
        · subst h
          intro hmem
          rcases List.mem_cons.mp hmem with h2 | h2
          · exact ha h2.symm
          · exact ih p (by rw [hx]; simp) h2
        · exact ih piece (by rw [hx]; exact List.mem_cons_of_mem _ h)

theorem splitOnChar_append_sep (sep : Char) (l rest : List Char) (hl : sep ∉ l) :
    splitOnChar sep (l ++ sep :: rest) = l :: splitOnChar sep rest := by
  induction l with
  | nil => simp [splitOnChar]
  | cons a m ih =>
    have ha : a ≠ sep := fun h => hl (by rw [h]; simp)
    have hm : sep ∉ m := fun h => hl (by simp [h])
    rw [List.cons_append, splitOnChar, if_neg ha, ih hm]

/-- Splitting the joined-and-terminated file recovers exactly the joined
lines plus one final empty piece: the file ends with exactly one
newline. -/
theorem split_join (sep : Char) (ls : List (List Char)) (hne : ls ≠ [])
    (hsep : ∀ l ∈ ls, sep ∉ l) :
    splitOnChar sep (joinSep [sep] ls ++ [sep]) = ls ++ [[]] := by
  induction ls with
  | nil => exact absurd rfl hne
  | cons x ls ih =>
    cases ls with
    | nil =>
      rw [joinSep]
      rw [show x ++ [sep] = x ++ sep :: [] by rfl]
      rw [splitOnChar_append_sep sep x [] (hsep x (by simp))]
      rfl
    | cons y rest =>
      rw [joinSep]
      have : (x ++ [sep] ++ joinSep [sep] (y :: rest)) ++ [sep]
          = x ++ sep :: (joinSep [sep] (y :: rest) ++ [sep]) := by
        simp
      rw [this, splitOnChar_append_sep sep x _ (hsep x (by simp)),
        ih (by simp) (fun l hl => hsep l (by simp [hl]))]
      rfl

theorem keptLines_spec (content : List Char) :
    ∀ l ∈ keptLines content, l ≠ [] ∧ trimL l = l ∧ '\n' ∉ l := by
  intro l hl
  unfold keptLines at hl
  obtain ⟨hmem, hne⟩ := List.mem_filter.mp hl
  obtain ⟨piece, hpiece, htrim⟩ := List.mem_map.mp hmem
  refine ⟨by simpa using hne, ?_, ?_⟩
  · rw [← htrim]
    exact trimL_idem piece
  · intro hc
    have hmemp : '\n' ∈ piece := mem_of_trimL piece _ (htrim ▸ hc)
    exact splitOnChar_no_sep '\n' content piece hpiece hmemp

theorem renderLine_spec (parse : List Char → Option Obj) (perObj : Obj → Obj)
    (l : List Char) (h1 : l ≠ []) (h2 : trimL l = l) (h3 : '\n' ∉ l) :
    renderLine parse perObj l ≠ [] ∧
      trimL (renderLine parse perObj l) = renderLine parse perObj l ∧
      '\n' ∉ renderLine parse perObj l := by
  unfold renderLine
  cases parse l with
  | none => exact ⟨h1, h2, h3⟩
  | some o =>
    refine ⟨dumpsObj_ne_nil _, ?_, ?_⟩
    · apply trimL_eq_self
      · intro c hc
        rw [dumpsObj_head] at hc
        injection hc with h4
        subst h4
        decide
      · intro c hc
        rw [dumpsObj_getLast] at hc
        injection hc with h4
        subst h4
        decide
    · intro hc
      exact dumpsObj_ne_nl (perObj o) '\n' hc rfl

/-- C10: every rewriting pass — metadata enrichment, the known-key
timestamp pass, and the heuristic pass when it writes — drops blank
lines, strips every kept line (non-JSON lines are preserved as their
stripped selves), and writes the kept lines joined by single newlines
with exactly one trailing newline: splitting the output on newline
returns exactly the transformed kept lines followed by one empty piece,
and every written line is non-empty and strip-fixed. -/
theorem rewrite_passes_line_discipline (parse : List Char → Option Obj) (srcType : String)
    (info : Obj) (content : List Char) (hne : keptLines content ≠ []) :
    (∀ perObj : Obj → Obj,
      processContent parse perObj content
          = joinSep ['\n'] ((keptLines content).map (renderLine parse perObj)) ++ ['\n'] ∧
        splitOnChar '\n' (processContent parse perObj content)
          = (keptLines content).map (renderLine parse perObj) ++ [[]] ∧
        ∀ l ∈ (keptLines content).map (renderLine parse perObj), l ≠ [] ∧ trimL l = l) ∧
      updateFileContent parse srcType info content
        = processContent parse (updateObj srcType info) content ∧
      addEpochContent parse content = processContent parse addEpochObj content ∧
      detectContentWritten parse content
        = processContent parse (fun o => (detectObj o).1) content := by
  refine ⟨?_, rfl, rfl, rfl⟩
  intro perObj
  have hrend : ∀ l ∈ (keptLines content).map (renderLine parse perObj),
      l ≠ [] ∧ trimL l = l ∧ '\n' ∉ l := by
    intro l hl
    obtain ⟨l0, hl0, heq⟩ := List.mem_map.mp hl
    obtain ⟨a, b, c⟩ := keptLines_spec content l0 hl0
    rw [← heq]
    exact renderLine_spec parse perObj l0 a b c
  refine ⟨rfl, ?_, fun l hl => ⟨(hrend l hl).1, (hrend l hl).2.1⟩⟩
  unfold processContent
  apply split_join
  · intro h
    exact hne (List.map_eq_nil_iff.mp h)
  · exact fun l hl => (hrend l hl).2.2

/-- A concrete parse function: one designated line parses as a record. -/
def c10parse : List Char → Option Obj :=
  fun l => if l = "rec".toList then some [("a", Json.num 1)] else none

/-- Concrete file content with whitespace padding, a blank line, a JSON
line and a junk line. -/
def c10content : List Char := "  rec \n\n junk line \n".toList

/-- Witness for `rewrite_passes_line_discipline` at concrete content. -/
theorem rewrite_passes_line_discipline_witness :
    updateFileContent c10parse "T" [] c10content
        = processContent c10parse (updateObj "T" []) c10content ∧
      splitOnChar '\n' (processContent c10parse (updateObj "T" []) c10content)
        = (keptLines c10content).map (renderLine c10parse (updateObj "T" [])) ++ [[]] := by
  have h := rewrite_passes_line_discipline c10parse "T" [] c10content (by decide)
  exact ⟨h.2.1, (h.1 (updateObj "T" [])).2.1⟩

end Velo
